import Mathlib

/-!
# hybriddb storage core

A shallow embedding of `include/hybriddb.h` and `src/storage/storage.cpp`
(values, pages, page store, buffer pool, write-ahead log, transaction manager,
catalog) together with the properties established about them.

Conventions of the embedding.

* Machine integers are natural numbers, reduced modulo `2 ^ w` wherever the
  C++ arithmetic is done in a `w`-bit unsigned type.  `int64_t` is an `Int`.
* A byte is a natural number below `256`; byte strings (`std::string`,
  `std::vector<uint8_t>`, file contents) are lists of bytes.
* `std::map` and `std::unordered_map` are association lists.
* Member functions that mutate their object return the new object next to
  their result.
* The host is little-endian (the code writes integers with
  `reinterpret_cast<const char*>`), and `PageHeader` is packed.
-/

namespace hybriddb

/-! ## Configuration (`hybriddb.h`) -/

/-- The macro `PAGE_SIZE`. -/
def PAGE_SIZE : Nat := 8192

/-- The macro `BUFFER_POOL_SIZE_MB`. -/
def BUFFER_POOL_SIZE_MB : Nat := 512

/-- The value of `sizeof(PageHeader)`: the packed header has
`4 + 4 + 2 + 2 + 4 + 4` bytes. -/
def SIZEOF_PAGE_HEADER : Nat := 20

/-! ## Bytes -/

/-- The loop `for (i = 0; i < n; i++) push_back((x >> (i * 8)) & 0xFF)` on an
unsigned `x`; also the memory image of an `n`-byte unsigned integer. -/
def leBytes (n : Nat) (x : Nat) : List Nat :=
  (List.range n).map (fun i => x / 2 ^ (i * 8) % 256)

/-- The same loop on a signed `x`: `>>` is the arithmetic shift (floor
division) and `& 0xFF` keeps the low eight bits. -/
def leBytesInt (n : Nat) (x : Int) : List Nat :=
  (List.range n).map (fun i => (x / 2 ^ (i * 8) % 256).toNat)

/-- The unsigned integer whose little-endian memory image is the given bytes. -/
def leNat : List Nat → Nat
  | [] => 0
  | b :: bs => b + 256 * leNat bs

/-! ## Association lists standing for `std::map` -/

/-- The call `m.find(k)`: the mapped value, when the key is present. -/
def mapFind {κ ν : Type} [DecidableEq κ] : List (κ × ν) → κ → Option ν
  | [], _ => none
  | (k', v) :: m, k => if k' = k then some v else mapFind m k

/-- The call `m.erase(k)`. -/
def mapErase {κ ν : Type} [DecidableEq κ] (m : List (κ × ν)) (k : κ) : List (κ × ν) :=
  m.filter (fun e => decide (e.1 ≠ k))

/-- The assignment `m[k] = v`: replaces the mapped value of a present key and
adds an absent one. -/
def mapInsert {κ ν : Type} [DecidableEq κ] : List (κ × ν) → κ → ν → List (κ × ν)
  | [], k, v => [(k, v)]
  | (k', v') :: m, k, v => if k' = k then (k, v) :: m else (k', v') :: mapInsert m k v

/-- The keys of a map. -/
def mapKeys {κ ν : Type} (m : List (κ × ν)) : List κ := m.map Prod.fst

/-! ## Type system -/

/-- The enumeration `DataType`. -/
inductive DataType where
  | TYPE_NULL | TYPE_BOOLEAN | TYPE_INT8 | TYPE_INT16 | TYPE_INT32 | TYPE_INT64
  | TYPE_FLOAT | TYPE_DOUBLE | TYPE_STRING | TYPE_BINARY | TYPE_TIMESTAMP | TYPE_JSON
  deriving DecidableEq, Repr

/-- The underlying `uint8_t` of a `DataType` (`static_cast<uint8_t>(type)`). -/
def DataType.toByte : DataType → Nat
  | .TYPE_NULL => 0 | .TYPE_BOOLEAN => 1 | .TYPE_INT8 => 2 | .TYPE_INT16 => 3
  | .TYPE_INT32 => 4 | .TYPE_INT64 => 5 | .TYPE_FLOAT => 6 | .TYPE_DOUBLE => 7
  | .TYPE_STRING => 8 | .TYPE_BINARY => 9 | .TYPE_TIMESTAMP => 10 | .TYPE_JSON => 11

/-- The struct `Value`.  The members of the anonymous union are kept as three
fields, each read only under its own tag; `doubleVal` is the IEEE-754 bit
pattern of the double. -/
structure Value where
  type : DataType
  boolVal : Bool
  intVal : Int
  doubleVal : Nat
  stringVal : List Nat
  binaryVal : List Nat
  deriving DecidableEq, Repr

namespace Value

/-- The constructor `Value()`: `type(TYPE_NULL), intVal(0)`; the zeroed union
reads as `false` and as the double `+0.0`. -/
def null : Value :=
  { type := .TYPE_NULL, boolVal := false, intVal := 0, doubleVal := 0,
    stringVal := [], binaryVal := [] }

/-- The constructor `Value(bool v)`. -/
def ofBool (v : Bool) : Value := { null with type := .TYPE_BOOLEAN, boolVal := v }

/-- The constructor `Value(int64_t v)`. -/
def ofInt (v : Int) : Value := { null with type := .TYPE_INT64, intVal := v }

/-- The constructor `Value(double v)`, from the bit pattern of `v`. -/
def ofDouble (bits : Nat) : Value := { null with type := .TYPE_DOUBLE, doubleVal := bits }

/-- The constructors `Value(const std::string&)` and `Value(const char*)`. -/
def ofString (v : List Nat) : Value := { null with type := .TYPE_STRING, stringVal := v }

/-- The function `Value::serialize`. -/
def serialize (v : Value) : List Nat :=
  let buffer := [v.type.toByte]
  match v.type with
  | .TYPE_NULL => buffer
  | .TYPE_BOOLEAN => buffer ++ [if v.boolVal then 1 else 0]
  | .TYPE_INT64 => buffer ++ leBytesInt 8 v.intVal
  | .TYPE_DOUBLE => buffer ++ leBytes 8 (v.doubleVal % 2 ^ 64)
  | .TYPE_STRING =>
      let len := v.stringVal.length % 2 ^ 32
      buffer ++ leBytes 4 len ++ v.stringVal
  | _ => buffer

/-- The function `Value::deserialize(data, offset)`: its body declares a
default `Value` and returns it; `offset` is left as it was. -/
def deserialize (_data : List Nat) (offset : Nat) : Value × Nat :=
  let v := Value.null
  (v, offset)

/-- The operator `Value::operator==`. -/
def eq (a other : Value) : Bool :=
  if a.type ≠ other.type then false
  else
    match a.type with
    | .TYPE_BOOLEAN => a.boolVal == other.boolVal
    | .TYPE_INT64 => a.intVal == other.intVal
    | .TYPE_STRING => a.stringVal == other.stringVal
    | _ => false

end Value

/-! ## Pages -/

/-- The packed struct `PageHeader`. -/
structure PageHeader where
  pageId : Nat
  tableId : Nat
  freeSpace : Nat
  itemCount : Nat
  flags : Nat
  checksum : Nat
  deriving DecidableEq, Repr

/-- The struct `Page`: the header and the array
`data[PAGE_SIZE - sizeof(PageHeader)]`. -/
structure Page where
  header : PageHeader
  data : List Nat
  deriving DecidableEq, Repr

/-- The memory image of a header, field after field. -/
def PageHeader.raw (h : PageHeader) : List Nat :=
  leBytes 4 h.pageId ++ leBytes 4 h.tableId ++ leBytes 2 h.freeSpace ++
    leBytes 2 h.itemCount ++ leBytes 4 h.flags ++ leBytes 4 h.checksum

namespace Page

/-- The memory image `reinterpret_cast<const uint8_t*>(this)` of a page. -/
def raw (p : Page) : List Nat := p.header.raw ++ p.data

/-- The page whose memory image is `bs`: what `file.read` into a `Page*`
leaves in the struct. -/
def ofRaw (bs : List Nat) : Page :=
  { header :=
      { pageId := leNat (bs.take 4)
        tableId := leNat ((bs.drop 4).take 4)
        freeSpace := leNat ((bs.drop 8).take 2)
        itemCount := leNat ((bs.drop 10).take 2)
        flags := leNat ((bs.drop 12).take 4)
        checksum := leNat ((bs.drop 16).take 4) }
    data := bs.drop SIZEOF_PAGE_HEADER }

/-- The constructor `Page()`: `memset(this, 0, sizeof(Page))`. -/
def zero : Page :=
  { header := { pageId := 0, tableId := 0, freeSpace := 0, itemCount := 0, flags := 0,
                checksum := 0 }
    data := List.replicate (PAGE_SIZE - SIZEOF_PAGE_HEADER) 0 }

/-- The function `Page::calculateChecksum`: the `uint32_t` running sum of the
bytes at offsets `sizeof(PageHeader) .. PAGE_SIZE - 1` of the memory image. -/
def calculateChecksum (p : Page) : Nat :=
  ((p.raw.drop SIZEOF_PAGE_HEADER).take (PAGE_SIZE - SIZEOF_PAGE_HEADER)).foldl
    (fun sum b => (sum + b) % 2 ^ 32) 0

end Page

/-- The function `Page::initialize`. -/
def Page.initialize (p : Page) (pageId tableId : Nat) : Page :=
  let p1 : Page :=
    { p with header :=
        { p.header with
          pageId := pageId
          tableId := tableId
          freeSpace := (PAGE_SIZE - SIZEOF_PAGE_HEADER) % 2 ^ 16
          itemCount := 0
          flags := 0 } }
  { p1 with header := { p1.header with checksum := p1.calculateChecksum } }

namespace Page

/-- The function `Page::verify`. -/
def verify (p : Page) : Bool := p.header.checksum == p.calculateChecksum

/-- A page as the C++ type holds it: every header field within its width and
`data` an array of `PAGE_SIZE - sizeof(PageHeader)` bytes. -/
def WF (p : Page) : Prop :=
  p.header.pageId < 2 ^ 32 ∧ p.header.tableId < 2 ^ 32 ∧ p.header.freeSpace < 2 ^ 16 ∧
  p.header.itemCount < 2 ^ 16 ∧ p.header.flags < 2 ^ 32 ∧ p.header.checksum < 2 ^ 32 ∧
  p.data.length = PAGE_SIZE - SIZEOF_PAGE_HEADER ∧ ∀ b ∈ p.data, b < 256

end Page

/-! ## Buffer pool -/

/-- The struct `BufferPool::Frame`. -/
structure Frame where
  page : Page
  tableId : Nat
  pageId : Nat
  dirty : Bool
  pinned : Bool
  lastAccess : Nat
  deriving DecidableEq, Repr

/-- A value-initialised frame, as `frames.resize(capacity)` creates it. -/
def Frame.zero : Frame :=
  { page := Page.zero, tableId := 0, pageId := 0, dirty := false, pinned := false,
    lastAccess := 0 }

/-- The class `BufferPool` (its mutex left out). -/
structure BufferPool where
  frames : List Frame
  pageMap : List (Nat × Nat)
  capacity : Nat
  hits : Nat
  misses : Nat
  deriving DecidableEq, Repr

namespace BufferPool

/-- The constructor `BufferPool(size_t sizeMB)`. -/
def new (sizeMB : Nat) : BufferPool :=
  let capacity := (sizeMB * 1024 * 1024) % 2 ^ 64 / PAGE_SIZE
  { frames := List.replicate capacity Frame.zero, pageMap := [], capacity := capacity,
    hits := 0, misses := 0 }

/-- The expression `(static_cast<uint64_t>(tableId) << 32) | pageId`. -/
def key (tableId pageId : Nat) : Nat := (tableId <<< 32) ||| pageId

/-- The function `BufferPool::getPage`; `now` is the reading of the system
clock.  A mapped index is taken to lie within `frames`. -/
def getPage (bp : BufferPool) (tableId pageId now : Nat) : Option Page × BufferPool :=
  match mapFind bp.pageMap (key tableId pageId) with
  | some idx =>
      let frame := bp.frames.getD idx Frame.zero
      (some frame.page,
        { bp with
          hits := (bp.hits + 1) % 2 ^ 64
          frames := bp.frames.set idx { frame with lastAccess := now } })
  | none => (none, { bp with misses := (bp.misses + 1) % 2 ^ 64 })

/-- The function `BufferPool::markDirty`. -/
def markDirty (bp : BufferPool) (tableId pageId : Nat) : BufferPool :=
  match mapFind bp.pageMap (key tableId pageId) with
  | some idx =>
      let frame := bp.frames.getD idx Frame.zero
      { bp with frames := bp.frames.set idx { frame with dirty := true } }
  | none => bp

/-- The function `BufferPool::flushAll`. -/
def flushAll (bp : BufferPool) : BufferPool :=
  { bp with frames := bp.frames.map (fun frame =>
      if frame.dirty then { frame with dirty := false } else frame) }

end BufferPool

/-! ## Page store -/

/-- What the code observes of a `std::fstream`: `is_open()` and, through
`operator!`, the sticky `failbit`. -/
structure FStream where
  is_open : Bool
  failbit : Bool
  deriving DecidableEq, Repr

/-- A default-constructed stream, as `tableFiles[tableId]` creates it for an
absent key. -/
def FStream.closed : FStream := { is_open := false, failbit := false }

/-- The call `file.open(path, in | out | binary)` on a closed stream: it
succeeds, and clears the error state, exactly when the file exists; otherwise
it sets `failbit`. -/
def FStream.open (file : FStream) (fileExists : Bool) : FStream :=
  if fileExists then { is_open := true, failbit := false } else { file with failbit := true }

/-- The data directory as the environment holds it: whether a file can be
created in it, and the content of each `table_<tableId>.dat` (the file name is
a one-to-one function of the table id). -/
structure DataDir where
  writable : Bool
  files : List (Nat × List Nat)
  deriving DecidableEq, Repr

/-- The content of a file after `bytes` are written at `offset`: a gap
between the old end of the file and `offset` reads as zeros. -/
def writeAt (content : List Nat) (offset : Nat) (bytes : List Nat) : List Nat :=
  (content ++ List.replicate (offset - content.length) 0).take offset ++ bytes ++
    content.drop (offset + bytes.length)

/-- The class `StorageEngine` (its mutex left out), together with the data
directory it works on. -/
structure StorageEngine where
  dataDirectory : String
  bufferPool : BufferPool
  tableFiles : List (Nat × FStream)
  disk : DataDir
  deriving DecidableEq, Repr

namespace StorageEngine

/-- The constructor `StorageEngine(dataDir)`; `disk` is the directory after
`mkdir`. -/
def new (dataDir : String) (disk : DataDir) : StorageEngine :=
  { dataDirectory := dataDir, bufferPool := BufferPool.new BUFFER_POOL_SIZE_MB,
    tableFiles := [], disk := disk }

/-- The function `StorageEngine::createTable`: an `ofstream` truncates or
creates the file and writes page 0. -/
def createTable (s : StorageEngine) (tableId : Nat) : Bool × StorageEngine :=
  if !s.disk.writable then (false, s)
  else
    let page := Page.initialize Page.zero 0 tableId
    (true, { s with disk := { s.disk with files := mapInsert s.disk.files tableId page.raw } })

/-- The function `StorageEngine::dropTable`: `remove` returns 0 exactly when
the file existed. -/
def dropTable (s : StorageEngine) (tableId : Nat) : Bool × StorageEngine :=
  let s := { s with tableFiles := mapErase s.tableFiles tableId }
  match mapFind s.disk.files tableId with
  | some _ => (true, { s with disk := { s.disk with files := mapErase s.disk.files tableId } })
  | none => (false, s)

/-- The statements
`std::fstream& file = tableFiles[tableId]; if (!file.is_open()) file.open(...)`
shared by `readPage` and `writePage`: the stream they go on with. -/
def stream (s : StorageEngine) (tableId : Nat) : FStream :=
  let file := (mapFind s.tableFiles tableId).getD FStream.closed
  if !file.is_open then file.open (mapFind s.disk.files tableId).isSome else file

/-- The function `StorageEngine::readPage`; `none` is the null pointer.  The
offset `pageId * PAGE_SIZE` is computed in 32-bit unsigned arithmetic.  A read
that meets the end of the file leaves the rest of the zeroed page as it is and
sets `failbit`. -/
def readPage (s : StorageEngine) (tableId pageId now : Nat) : Option Page × StorageEngine :=
  let (cached, bp) := s.bufferPool.getPage tableId pageId now
  let s := { s with bufferPool := bp }
  match cached with
  | some page => (some page, s)
  | none =>
      let file := s.stream tableId
      if file.failbit then (none, { s with tableFiles := mapInsert s.tableFiles tableId file })
      else
        let offset := pageId * PAGE_SIZE % 2 ^ 32
        let content := (mapFind s.disk.files tableId).getD []
        let got := (content.drop offset).take PAGE_SIZE
        let page := Page.ofRaw (got ++ List.replicate (PAGE_SIZE - got.length) 0)
        let file := { file with failbit := decide (got.length < PAGE_SIZE) }
        let s := { s with tableFiles := mapInsert s.tableFiles tableId file }
        if !page.verify then (none, s) else (some page, s)

/-- The function `StorageEngine::writePage`.  An open stream always has its
file in the directory (`dropTable` closes the stream before it removes the
file), so the branch without a file only keeps the function total. -/
def writePage (s : StorageEngine) (tableId : Nat) (page : Page) : Bool × StorageEngine :=
  let s := { s with bufferPool := s.bufferPool.markDirty tableId page.header.pageId }
  let file := s.stream tableId
  let s := { s with tableFiles := mapInsert s.tableFiles tableId file }
  if file.failbit then (false, s)
  else
    let offset := page.header.pageId * PAGE_SIZE % 2 ^ 32
    match mapFind s.disk.files tableId with
    | some content =>
        (true, { s with disk :=
          { s.disk with files := mapInsert s.disk.files tableId (writeAt content offset page.raw) } })
    | none => (true, s)

/-- The function `StorageEngine::sync`; writes reach the file at once in this
embedding, so flushing the streams changes nothing. -/
def sync (s : StorageEngine) : StorageEngine :=
  { s with bufferPool := s.bufferPool.flushAll }

/-- The environment replaces the content of the data directory (what a crash,
a torn write or another program does to the files). -/
def tamper (s : StorageEngine) (files : List (Nat × List Nat)) : StorageEngine :=
  { s with disk := { s.disk with files := files } }

/-- The states of a storage engine: those the constructor gives, closed under
its member functions, under the member functions of its buffer pool, and under
changes the environment makes to the files. -/
inductive Reachable : StorageEngine → Prop
  | new (dataDir : String) (disk : DataDir) : Reachable (StorageEngine.new dataDir disk)
  | createTable {s : StorageEngine} (tableId : Nat) :
      Reachable s → Reachable (s.createTable tableId).2
  | dropTable {s : StorageEngine} (tableId : Nat) :
      Reachable s → Reachable (s.dropTable tableId).2
  | readPage {s : StorageEngine} (tableId pageId now : Nat) :
      Reachable s → Reachable (s.readPage tableId pageId now).2
  | writePage {s : StorageEngine} (tableId : Nat) (page : Page) :
      Reachable s → Reachable (s.writePage tableId page).2
  | sync {s : StorageEngine} : Reachable s → Reachable s.sync
  | getPage {s : StorageEngine} (tableId pageId now : Nat) :
      Reachable s →
        Reachable { s with bufferPool := (s.bufferPool.getPage tableId pageId now).2 }
  | markDirty {s : StorageEngine} (tableId pageId : Nat) :
      Reachable s → Reachable { s with bufferPool := s.bufferPool.markDirty tableId pageId }
  | flushAll {s : StorageEngine} :
      Reachable s → Reachable { s with bufferPool := s.bufferPool.flushAll }
  | tamper {s : StorageEngine} (files : List (Nat × List Nat)) :
      Reachable s → Reachable (s.tamper files)

end StorageEngine

/-! ## Write-ahead log -/

/-- The enumeration `WALRecordType`. -/
inductive WALRecordType where
  | BEGIN_TXN | COMMIT_TXN | ABORT_TXN | INSERT | UPDATE | DELETE | CHECKPOINT
  deriving DecidableEq, Repr

/-- The underlying `uint8_t` of a `WALRecordType`. -/
def WALRecordType.toByte : WALRecordType → Nat
  | .BEGIN_TXN => 1 | .COMMIT_TXN => 2 | .ABORT_TXN => 3 | .INSERT => 4
  | .UPDATE => 5 | .DELETE => 6 | .CHECKPOINT => 7

/-- The struct `WALRecord`. -/
structure WALRecord where
  type : WALRecordType
  lsn : Nat
  txnId : Nat
  length : Nat
  data : List Nat
  deriving DecidableEq, Repr

/-- The function `WALRecord::serialize`. -/
def WALRecord.serialize (r : WALRecord) : List Nat :=
  [r.type.toByte] ++ leBytes 8 r.lsn ++ leBytes 8 r.txnId ++ r.data

/-- The values that members without an initialiser hold in a local
`WALRecord record;` (`lsn`, `length`) and `Transaction txn;` (`commitLSN`):
whatever the stack held.  Every function that declares such a local takes
them as an argument. -/
structure Indeterminate where
  lsn : Nat
  length : Nat
  commitLSN : Nat
  deriving DecidableEq, Repr

/-- The class `WALManager` (mutex and flush thread left out).  `currentSegment`
is the content of the file the stream appends to, `none` when the stream is
not open. -/
structure WALManager where
  walDirectory : String
  currentSegment : Option (List Nat)
  currentLSN : Nat
  running : Bool
  deriving DecidableEq, Repr

namespace WALManager

/-- The constructor `WALManager(walDir)`: `currentLSN(0)`, `running(true)`,
then `openNewSegment()`, which opens `wal_0000000000000000.log` for appending;
`segment` is what that file holds, `none` when it cannot be opened. -/
def new (walDir : String) (segment : Option (List Nat)) : WALManager :=
  { walDirectory := walDir, currentSegment := segment, currentLSN := 0, running := true }

/-- The function `WALManager::getCurrentLSN`. -/
def getCurrentLSN (w : WALManager) : Nat := w.currentLSN

/-- The function `WALManager::appendRecord`: `lsn = currentLSN++` on a 64-bit
counter, then the eight bytes of `lsn` and the serialised record go to the
segment. -/
def appendRecord (w : WALManager) (record : WALRecord) : Nat × WALManager :=
  let lsn := w.currentLSN
  let w := { w with currentLSN := (w.currentLSN + 1) % 2 ^ 64 }
  let data := record.serialize
  (lsn, { w with currentSegment := w.currentSegment.map (fun c => c ++ leBytes 8 lsn ++ data) })

/-- The function `WALManager::flush`: the bytes are in the file already. -/
def flush (w : WALManager) : WALManager := w

/-- A sequence of `appendRecord` calls: the LSN each call returned, in call
order, and the manager after the last. -/
def appendRecords : WALManager → List WALRecord → List Nat × WALManager
  | w, [] => ([], w)
  | w, r :: rs =>
      let (lsn, w1) := w.appendRecord r
      let (lsns, w2) := appendRecords w1 rs
      (lsn :: lsns, w2)

end WALManager

/-! ## Transaction manager -/

/-- The enumeration `IsolationLevel`. -/
inductive IsolationLevel where
  | READ_UNCOMMITTED | READ_COMMITTED | REPEATABLE_READ | SERIALIZABLE
  deriving DecidableEq, Repr

/-- The struct `TransactionManager::Transaction`.  An undo action, a
`std::function<void()>`, is a function on the state `W` it was built to
repair. -/
structure Transaction (W : Type) where
  txnId : Nat
  isolationLevel : IsolationLevel
  startLSN : Nat
  commitLSN : Nat
  undoLog : List (W → W)
  active : Bool

/-- The class `TransactionManager` (its mutex left out), holding the
`WALManager` its pointer refers to. -/
structure TransactionManager (W : Type) where
  activeTxns : List (Nat × Transaction W)
  txnCounter : Nat
  walManager : WALManager

namespace TransactionManager

variable {W : Type}

/-- The constructor `TransactionManager(wal)`: `txnCounter(1)`. -/
def new (wal : WALManager) : TransactionManager W :=
  { activeTxns := [], txnCounter := 1, walManager := wal }

/-- The function `TransactionManager::begin`. -/
def begin (tm : TransactionManager W) (level : IsolationLevel) (u : Indeterminate) :
    Nat × TransactionManager W :=
  let txnId := tm.txnCounter
  let tm := { tm with txnCounter := (tm.txnCounter + 1) % 2 ^ 64 }
  let txn : Transaction W :=
    { txnId := txnId, isolationLevel := level, startLSN := tm.walManager.getCurrentLSN,
      commitLSN := u.commitLSN, undoLog := [], active := true }
  let tm := { tm with activeTxns := mapInsert tm.activeTxns txnId txn }
  let record : WALRecord :=
    { type := .BEGIN_TXN, lsn := u.lsn, txnId := txnId, length := u.length, data := [] }
  (txnId, { tm with walManager := (tm.walManager.appendRecord record).2 })

/-- The function `TransactionManager::commit`. -/
def commit (tm : TransactionManager W) (txnId : Nat) (u : Indeterminate) :
    Bool × TransactionManager W :=
  match mapFind tm.activeTxns txnId with
  | none => (false, tm)
  | some txn =>
      if !txn.active then (false, tm)
      else
        let record : WALRecord :=
          { type := .COMMIT_TXN, lsn := u.lsn, txnId := txnId, length := u.length, data := [] }
        (true, { tm with
          walManager := (tm.walManager.appendRecord record).2
          activeTxns := mapErase tm.activeTxns txnId })

/-- The function `TransactionManager::rollback`, run on the state `world` the
undo actions act on. -/
def rollback (tm : TransactionManager W) (txnId : Nat) (u : Indeterminate) (world : W) :
    Bool × TransactionManager W × W :=
  match mapFind tm.activeTxns txnId with
  | none => (false, tm, world)
  | some txn =>
      let world := txn.undoLog.reverse.foldl (fun w action => action w) world
      let record : WALRecord :=
        { type := .ABORT_TXN, lsn := u.lsn, txnId := txnId, length := u.length, data := [] }
      (true,
        { tm with
          walManager := (tm.walManager.appendRecord record).2
          activeTxns := mapErase tm.activeTxns txnId },
        world)

/-- Modelled from the spec: `TransactionManager::addUndoAction` is declared in
`hybriddb.h` and defined nowhere in the sources; the spec has it push `action`
onto the undo stack of the transaction.  For an id that is not active nothing
is stored. -/
def addUndoAction (tm : TransactionManager W) (txnId : Nat) (action : W → W) :
    TransactionManager W :=
  match mapFind tm.activeTxns txnId with
  | none => tm
  | some txn =>
      { tm with
        activeTxns := mapInsert tm.activeTxns txnId { txn with undoLog := txn.undoLog ++ [action] } }

end TransactionManager

/-- A call of a public member function of `TransactionManager`. -/
inductive TxnCall (W : Type) where
  | begin (level : IsolationLevel) (u : Indeterminate)
  | commit (txnId : Nat) (u : Indeterminate)
  | rollback (txnId : Nat) (u : Indeterminate)
  | addUndoAction (txnId : Nat) (action : W → W)

/-- What a call returned: the id from `begin`, the flag from `commit` and
`rollback`, nothing from `addUndoAction`. -/
inductive TxnResult where
  | id (txnId : Nat)
  | flag (ok : Bool)
  | unit
  deriving DecidableEq, Repr

/-- The number of `begin` calls among the calls. -/
def TxnCall.beginCount {W : Type} : List (TxnCall W) → Nat
  | [] => 0
  | .begin _ _ :: cs => beginCount cs + 1
  | _ :: cs => beginCount cs

namespace TransactionManager

variable {W : Type}

/-- One call on the manager and the state the undo actions act on. -/
def step (st : TransactionManager W × W) : TxnCall W → TxnResult × TransactionManager W × W
  | .begin level u => let r := st.1.begin level u; (.id r.1, r.2, st.2)
  | .commit txnId u => let r := st.1.commit txnId u; (.flag r.1, r.2, st.2)
  | .rollback txnId u => let r := st.1.rollback txnId u st.2; (.flag r.1, r.2.1, r.2.2)
  | .addUndoAction txnId action => (.unit, st.1.addUndoAction txnId action, st.2)

/-- A sequence of calls: the results in call order and the final state. -/
def run : TransactionManager W × W → List (TxnCall W) → List TxnResult × TransactionManager W × W
  | st, [] => ([], st)
  | st, c :: cs =>
      let r := step st c
      let rest := run r.2 cs
      (r.1 :: rest.1, rest.2)

/-- The ids returned by the `begin` calls among the results, in call order. -/
def begunIds : List TxnResult → List Nat
  | [] => []
  | .id txnId :: rs => txnId :: begunIds rs
  | _ :: rs => begunIds rs

/-- The states of a transaction manager: those the constructor gives, closed
under its member functions and under what other users of the shared
`WALManager` do to the log. -/
inductive Reachable : TransactionManager W → Prop
  | new (wal : WALManager) : Reachable (TransactionManager.new wal)
  | step {tm : TransactionManager W} (world : W) (c : TxnCall W) :
      Reachable tm → Reachable (step (tm, world) c).2.1
  | wal {tm : TransactionManager W} (w : WALManager) :
      Reachable tm → Reachable { tm with walManager := w }

end TransactionManager

/-! ## Catalog -/

/-- The struct `ColumnDef`. -/
structure ColumnDef where
  name : String
  type : DataType
  nullable : Bool
  primaryKey : Bool
  unique : Bool
  defaultValue : Value
  deriving DecidableEq, Repr

/-- The struct `TableSchema`. -/
structure TableSchema where
  tableId : Nat
  tableName : String
  columns : List ColumnDef
  primaryKeyColumn : String
  isDocumentMode : Bool
  rowCount : Nat
  deriving DecidableEq, Repr

/-- The function `TableSchema::serialize`: it returns the empty buffer it
declared. -/
def TableSchema.serialize (_schema : TableSchema) : List Nat :=
  let buffer : List Nat := []
  buffer

/-- The class `QueryEngine` as its DDL functions use it (mutex left out):
the page store behind `storage`, the catalog, the id counter, and the file
`data/metadata/catalog.dat` of the environment (`none` when absent;
`metadataWritable` tells whether the file can be opened for writing). -/
structure QueryEngine where
  storage : StorageEngine
  catalog : List (String × TableSchema)
  tableIdCounter : Nat
  catalogFile : Option (List Nat)
  metadataWritable : Bool
  deriving DecidableEq, Repr

namespace QueryEngine

/-- The constructor `QueryEngine(se, tm)` when `data/metadata/catalog.dat`
cannot be opened: `tableIdCounter(1)`, and `loadCatalog()` returns at once, so
the catalog is empty. -/
def new (se : StorageEngine) (metadataWritable : Bool) : QueryEngine :=
  { storage := se, catalog := [], tableIdCounter := 1, catalogFile := none,
    metadataWritable := metadataWritable }

/-- The function `QueryEngine::saveCatalog`.  The schemas are written in the
order of the association list; every schema serialises to the same bytes, so
the order does not show in the file. -/
def saveCatalog (q : QueryEngine) : QueryEngine :=
  if !q.metadataWritable then q
  else
    let count := q.catalog.length % 2 ^ 32
    let entries := q.catalog.map (fun e =>
      let data := e.2.serialize
      let len := data.length % 2 ^ 32
      leBytes 4 len ++ data.take len)
    { q with catalogFile := some (leBytes 4 count ++ entries.flatten) }

/-- The function `QueryEngine::createTable`. -/
def createTable (q : QueryEngine) (name : String) (columns : List ColumnDef) (docMode : Bool) :
    Bool × QueryEngine :=
  if (mapFind q.catalog name).isSome then (false, q)
  else
    let schema : TableSchema :=
      { tableId := q.tableIdCounter, tableName := name, columns := columns,
        primaryKeyColumn := "", isDocumentMode := docMode, rowCount := 0 }
    let q := { q with tableIdCounter := (q.tableIdCounter + 1) % 2 ^ 32 }
    let q := { q with catalog := mapInsert q.catalog name schema }
    let q := { q with storage := (q.storage.createTable schema.tableId).2 }
    (true, q.saveCatalog)

/-- The function `QueryEngine::dropTable`. -/
def dropTable (q : QueryEngine) (name : String) : Bool × QueryEngine :=
  match mapFind q.catalog name with
  | none => (false, q)
  | some schema =>
      let q := { q with storage := (q.storage.dropTable schema.tableId).2 }
      let q := { q with catalog := mapErase q.catalog name }
      (true, q.saveCatalog)

/-- The function `QueryEngine::getTableSchema`. -/
def getTableSchema (q : QueryEngine) (name : String) : Option TableSchema :=
  mapFind q.catalog name

end QueryEngine

/-- A DDL call on the query engine. -/
inductive DDLCall where
  | createTable (name : String) (columns : List ColumnDef) (docMode : Bool)
  | dropTable (name : String)
  deriving DecidableEq, Repr

/-- What a DDL call returned. -/
inductive DDLResult where
  | created (ok : Bool) (tableId : Option Nat)
  | dropped (ok : Bool)
  deriving DecidableEq, Repr

namespace QueryEngine

/-- One DDL call.  For `createTable` the result holds the returned flag and,
after a success, the table id of the new schema, read back with
`getTableSchema`. -/
def ddlStep (q : QueryEngine) : DDLCall → DDLResult × QueryEngine
  | .createTable name columns docMode =>
      let r := q.createTable name columns docMode
      (.created r.1
        (if r.1 then (r.2.getTableSchema name).map (fun schema => schema.tableId) else none),
        r.2)
  | .dropTable name =>
      let r := q.dropTable name
      (.dropped r.1, r.2)

/-- A sequence of DDL calls: the results in call order and the final engine. -/
def ddlRun : QueryEngine → List DDLCall → List DDLResult × QueryEngine
  | q, [] => ([], q)
  | q, c :: cs =>
      let r := q.ddlStep c
      let rest := ddlRun r.2 cs
      (r.1 :: rest.1, rest.2)

/-- The number of `createTable` calls that returned true. -/
def createCount : List DDLResult → Nat
  | [] => 0
  | .created true _ :: rs => createCount rs + 1
  | _ :: rs => createCount rs

/-- The table ids assigned by the successful `createTable` calls, in call
order. -/
def assignedIds : List DDLResult → List Nat
  | [] => []
  | .created true (some tableId) :: rs => tableId :: assignedIds rs
  | _ :: rs => assignedIds rs

end QueryEngine

/-! ## Executor (DML)

`QueryEngine::insert`, `select`, `update` and `remove`, and the functions
`StorageEngine::insertTuple`, `updateTuple`, `deleteTuple` and `scanTable`
below them, are declared in `hybriddb.h` and defined nowhere in the sources.
This section follows the description the spec gives of them. -/

/-- The struct `Tuple`. -/
structure Tuple where
  rowId : Nat
  txnId : Nat
  timestamp : Nat
  deleted : Bool
  columns : List (String × Value)
  deriving DecidableEq, Repr

/-- Modelled from the spec: the tuples the missing tuple functions of the page
store keep, per table name and in scan order (page id ascending, slot
ascending); a tombstone stays in the list. -/
abbrev Tables := List (String × List Tuple)

/-- Modelled from the spec: what the spec leaves to the implementation of the
missing DML functions: the schema validation of an insert (type, nullability,
primary key), and the payload of the WAL record of each operation. -/
structure ExecEnv where
  validate : String → List Tuple → List (String × Value) → Bool
  insertPayload : String → Tuple → List Nat
  updatePayload : String → Tuple → Tuple → List Nat
  deletePayload : String → Nat → List Nat

/-- Modelled from the spec: the state of the missing DML functions: the
transaction manager and the tuples of the tables. -/
structure Executor where
  txnManager : TransactionManager Tables
  tables : Tables

/-- Modelled from the spec: the undo action of the missing `insert`, which
"deletes the rowId". -/
def undoInsert (table : String) (rowId : Nat) (tables : Tables) : Tables :=
  match mapFind tables table with
  | none => tables
  | some rows => mapInsert tables table (rows.filter (fun t => decide (t.rowId ≠ rowId)))

/-- Modelled from the spec: the undo action of the missing `update`, which
"restores the before-image". -/
def undoUpdate (table : String) (before : Tuple) (tables : Tables) : Tables :=
  match mapFind tables table with
  | none => tables
  | some rows =>
      mapInsert tables table (rows.map (fun t => if t.rowId = before.rowId then before else t))

/-- Modelled from the spec: the undo action of the missing `remove`, which
"clears the tombstone". -/
def undoRemove (table : String) (rowId : Nat) (tables : Tables) : Tables :=
  match mapFind tables table with
  | none => tables
  | some rows =>
      mapInsert tables table
        (rows.map (fun t => if t.rowId = rowId then { t with deleted := false } else t))

/-- Modelled from the spec: a "freshly allocated rowId" of the missing
`insert`: one more than the largest row id in the table, 1 in an empty table
(scenario 1 of the spec). -/
def freshRowId (rows : List Tuple) : Nat := (rows.map (fun t => t.rowId)).foldr max 0 + 1

/-- Modelled from the spec: the tuple the missing `update` and `remove` read:
the one with the given row id, not found when absent or a tombstone. -/
def findLive (rows : List Tuple) (rowId : Nat) : Option Tuple :=
  rows.find? (fun t => decide (t.rowId = rowId) && !t.deleted)

namespace Executor

/-- Modelled from the spec: the WAL record the missing DML functions write. -/
def logRecord (e : Executor) (type : WALRecordType) (txnId : Nat) (payload : List Nat) :
    Executor :=
  let record : WALRecord :=
    { type := type, lsn := e.txnManager.walManager.getCurrentLSN, txnId := txnId,
      length := payload.length % 2 ^ 32, data := payload }
  { e with txnManager :=
      { e.txnManager with walManager := (e.txnManager.walManager.appendRecord record).2 } }

/-- Modelled from the spec: the missing `QueryEngine::insert`: validate,
build the tuple with a fresh row id, write an `INSERT` record, install the
tuple, register the undo action that deletes the row id. -/
def insert (env : ExecEnv) (e : Executor) (table : String) (values : List (String × Value))
    (txnId now : Nat) : Bool × Executor :=
  match mapFind e.tables table with
  | none => (false, e)
  | some rows =>
      if !env.validate table rows values then (false, e)
      else
        let tuple : Tuple :=
          { rowId := freshRowId rows, txnId := txnId, timestamp := now, deleted := false,
            columns := values }
        let e := e.logRecord .INSERT txnId (env.insertPayload table tuple)
        let e := { e with tables := mapInsert e.tables table (rows ++ [tuple]) }
        (true, { e with
          txnManager := e.txnManager.addUndoAction txnId (undoInsert table tuple.rowId) })

/-- Modelled from the spec: the missing `QueryEngine::select`: scan the
table, skip tombstones, yield the tuples matching the predicate. -/
def select (e : Executor) (table : String) (filter : Tuple → Bool) : List Tuple :=
  ((mapFind e.tables table).getD []).filter (fun t => !t.deleted && filter t)

/-- Modelled from the spec: the missing `QueryEngine::update`: read the
current tuple, write an `UPDATE` record with both images, install the new
image (the given values over the old columns), register the undo action that
restores the before-image. -/
def update (env : ExecEnv) (e : Executor) (table : String) (rowId : Nat)
    (values : List (String × Value)) (txnId : Nat) : Bool × Executor :=
  match mapFind e.tables table with
  | none => (false, e)
  | some rows =>
      match findLive rows rowId with
      | none => (false, e)
      | some before =>
          let after : Tuple :=
            { before with
              columns := values.foldl (fun cols kv => mapInsert cols kv.1 kv.2) before.columns }
          let e := e.logRecord .UPDATE txnId (env.updatePayload table before after)
          let rows1 := rows.map (fun t => if t.rowId = rowId then after else t)
          let e := { e with tables := mapInsert e.tables table rows1 }
          (true, { e with
            txnManager := e.txnManager.addUndoAction txnId (undoUpdate table before) })

/-- Modelled from the spec: the missing `QueryEngine::remove`: mark the tuple
deleted, write a `DELETE` record, register the undo action that clears the
tombstone. -/
def remove (env : ExecEnv) (e : Executor) (table : String) (rowId : Nat) (txnId : Nat) :
    Bool × Executor :=
  match mapFind e.tables table with
  | none => (false, e)
  | some rows =>
      match findLive rows rowId with
      | none => (false, e)
      | some _ =>
          let e := e.logRecord .DELETE txnId (env.deletePayload table rowId)
          let rows1 := rows.map (fun t => if t.rowId = rowId then { t with deleted := true } else t)
          let e := { e with tables := mapInsert e.tables table rows1 }
          (true, { e with
            txnManager := e.txnManager.addUndoAction txnId (undoRemove table rowId) })

/-- The functions `TransactionManager::begin` and `rollback` called on the
manager of the executor; the undo actions act on its tables. -/
def begin (e : Executor) (level : IsolationLevel) (u : Indeterminate) : Nat × Executor :=
  let r := e.txnManager.begin level u
  (r.1, { e with txnManager := r.2 })

/-- See `Executor.begin`. -/
def rollback (e : Executor) (txnId : Nat) (u : Indeterminate) : Bool × Executor :=
  let r := e.txnManager.rollback txnId u e.tables
  (r.1, { txnManager := r.2.1, tables := r.2.2 })

end Executor

/-- A DML call on the executor. -/
inductive DMLCall where
  | insert (table : String) (values : List (String × Value)) (now : Nat)
  | update (table : String) (rowId : Nat) (values : List (String × Value))
  | remove (table : String) (rowId : Nat)
  deriving DecidableEq, Repr

namespace Executor

/-- One DML call under transaction `txnId`. -/
def dmlStep (env : ExecEnv) (txnId : Nat) (e : Executor) : DMLCall → Executor
  | .insert table values now => (e.insert env table values txnId now).2
  | .update table rowId values => (e.update env table rowId values txnId).2
  | .remove table rowId => (e.remove env table rowId txnId).2

/-- A sequence of DML calls under transaction `txnId`. -/
def dmlRun (env : ExecEnv) (txnId : Nat) (e : Executor) (calls : List DMLCall) : Executor :=
  calls.foldl (dmlStep env txnId) e

end Executor

/-- The row ids of every table are pairwise different ("`rowId`, unique
within a table"). -/
def RowIdsUnique (tables : Tables) : Prop :=
  ∀ e ∈ tables, (e.2.map (fun t => t.rowId)).Nodup

/-! ## Sample states -/

/-- A writable data directory without files. -/
def sampleDisk : DataDir := { writable := true, files := [] }

/-- A fresh page store after `createTable(1)`. -/
def sampleEngine : StorageEngine := ((StorageEngine.new "data" sampleDisk).createTable 1).2

/-- Page 0 of table 1 as `createTable` writes it. -/
def samplePage : Page := Page.initialize Page.zero 0 1

/-- The sample page store after `readPage(1, 1)`, a read past the end of the
one-page file. -/
def sampleEngineAfterShortRead : StorageEngine := (sampleEngine.readPage 1 1 0).2

/-- A fresh log manager on an empty segment file. -/
def sampleWAL : WALManager := WALManager.new "wal" (some [])

/-- Zeros for the indeterminate members. -/
def sampleIndeterminate : Indeterminate := { lsn := 0, length := 0, commitLSN := 0 }

/-- The invariant of the catalog: names are keys, keys and table ids are
pairwise different, and every table id lies below the counter. -/
def QueryEngine.CatalogInv (q : QueryEngine) : Prop :=
  (mapKeys q.catalog).Nodup ∧ (q.catalog.map (fun e => e.2.tableId)).Nodup ∧
  (∀ e ∈ q.catalog, e.2.tableName = e.1) ∧ ∀ e ∈ q.catalog, e.2.tableId < q.tableIdCounter

/-- A fresh query engine over a fresh page store. -/
def sampleQueryEngine : QueryEngine := QueryEngine.new (StorageEngine.new "data" sampleDisk) true

/-- Create `a` and `b`, drop `a`, create `a` again. -/
def sampleDDL : List DDLCall :=
  [.createTable "a" [] false, .createTable "b" [] false, .dropTable "a",
    .createTable "a" [] false]

/-- A table `t` with two rows, the second a tombstone, under a fresh
transaction manager. -/
def sampleExecutor : Executor :=
  { txnManager := TransactionManager.new sampleWAL
    tables :=
      [("t",
        [{ rowId := 1, txnId := 0, timestamp := 0, deleted := false, columns := [] },
         { rowId := 2, txnId := 0, timestamp := 0, deleted := true, columns := [] }])] }

/-- An environment that accepts every insert and logs empty payloads. -/
def sampleExecEnv : ExecEnv :=
  { validate := fun _ _ _ => true
    insertPayload := fun _ _ => []
    updatePayload := fun _ _ _ => []
    deletePayload := fun _ _ => [] }

/-- An insert, an update and a removal of row 1, and a removal of the
tombstone row 2. -/
def sampleDML : List DMLCall :=
  [.insert "t" [("id", Value.ofInt 3)] 5, .update "t" 1 [("id", Value.ofInt 9)],
    .remove "t" 1, .remove "t" 2]

/-! ## Deserialisation and catalog loading -/

/-- The function `TableSchema::deserialize(data, length)`: its body declares a
local `TableSchema schema;` and returns it.  The strings and the vector of the
local are empty; `u` holds the values its members without an initialiser
(`tableId`, `isDocumentMode`, `rowCount`) happen to have. -/
def TableSchema.deserialize (_data : List Nat) (_length : Nat) (u : TableSchema) :
    TableSchema :=
  { u with tableName := "", columns := [], primaryKeyColumn := "" }

/-- The function `WALRecord::deserialize(data)`: its body declares a local
`WALRecord record;` and returns it.  The vector of the local is empty; `u`
holds the values its members without an initialiser (`type`, `lsn`, `txnId`,
`length`) happen to have. -/
def WALRecord.deserialize (_data : List Nat) (u : WALRecord) : WALRecord :=
  { u with data := [] }

/-- The values the locals of `loadCatalog` hold before anything is read into
them: `count`, and in the `i`-th round of the loop `len` and the members of the
schema `TableSchema::deserialize` declares. -/
structure CatalogIndeterminate where
  count : Nat
  len : Nat → Nat
  schema : Nat → TableSchema

/-- The call `file.read(reinterpret_cast<char*>(&x), sizeof(x))` on a
`uint32_t x` holding `old`, with `rest` the bytes of the file not yet read: the
bytes the file still has overwrite the first bytes of `x`.  The result is the
new `x` and the bytes left. -/
def readU32 (rest : List Nat) (old : Nat) : Nat × List Nat :=
  let got := rest.take 4
  (leNat (got ++ (leBytes 4 old).drop got.length), rest.drop 4)

namespace QueryEngine

/-- The loop of `QueryEngine::loadCatalog`, `n` rounds from round `i` on. -/
def loadLoop (u : CatalogIndeterminate) : Nat → Nat → List Nat → QueryEngine → QueryEngine
  | 0, _, _, q => q
  | n + 1, i, rest, q =>
      let r := readU32 rest (u.len i)
      let len := r.1
      let data := r.2.take len ++ List.replicate (len - (r.2.take len).length) 0
      let schema := TableSchema.deserialize data len (u.schema i)
      let q := { q with catalog := mapInsert q.catalog schema.tableName schema }
      let q := { q with tableIdCounter := max q.tableIdCounter ((schema.tableId + 1) % 2 ^ 32) }
      loadLoop u n (i + 1) (r.2.drop len) q

/-- The function `QueryEngine::loadCatalog`. -/
def loadCatalog (q : QueryEngine) (u : CatalogIndeterminate) : QueryEngine :=
  match q.catalogFile with
  | none => q
  | some bytes =>
      let r := readU32 bytes u.count
      loadLoop u r.1 0 r.2 q

/-- The constructor `QueryEngine(se, tm)`: `tableIdCounter(1)`, then
`loadCatalog()` on the catalog file the environment holds. -/
def construct (se : StorageEngine) (catalogFile : Option (List Nat)) (metadataWritable : Bool)
    (u : CatalogIndeterminate) : QueryEngine :=
  loadCatalog
    { storage := se, catalog := [], tableIdCounter := 1, catalogFile := catalogFile,
      metadataWritable := metadataWritable } u

end QueryEngine

/-! ## Hit rate -/

/-- The function `BufferPool::getHitRate`.  A `double` is the rational number
it stands for, and `rnd` is the rounding of a rational number to the nearest
`double`: `static_cast<double>(hits) / total` rounds `hits`, rounds `total` and
rounds the quotient.  `total` is the 64-bit sum. -/
def BufferPool.getHitRate (rnd : ℚ → ℚ) (bp : BufferPool) : ℚ :=
  let total : Nat := (bp.hits + bp.misses) % 2 ^ 64
  if total > 0 then rnd (rnd (bp.hits : ℚ) / rnd (total : ℚ)) else 0

/-! ## Layouts in the words of the spec -/

/-- The record layout of the spec, `lsn:u64 LE || type:u8 || txnId:u64 LE ||
length:u32 LE || payload[length]`, for comparison with what `appendRecord`
writes. -/
def specWalFrame (lsn : Nat) (r : WALRecord) : List Nat :=
  leBytes 8 lsn ++ [r.type.toByte] ++ leBytes 8 r.txnId ++ leBytes 4 r.data.length ++ r.data

/-- The value encoding of the spec for a binary value, `type:u8` then
`len:u32 LE || raw bytes`, for comparison with what `Value::serialize`
writes. -/
def specBinaryEncoding (bytes : List Nat) : List Nat :=
  [DataType.TYPE_BINARY.toByte] ++ leBytes 4 bytes.length ++ bytes

/-! ## Further sample states -/

/-- Zeros for the indeterminate locals of `loadCatalog`. -/
def sampleCatalogIndeterminate : CatalogIndeterminate :=
  { count := 0
    len := fun _ => 0
    schema := fun _ =>
      { tableId := 0, tableName := "", columns := [], primaryKeyColumn := "",
        isDocumentMode := false, rowCount := 0 } }

/-- The sample query engine after `createTable("a")` and `createTable("b")`. -/
def sampleCatalogEngine : QueryEngine :=
  (sampleQueryEngine.ddlRun [.createTable "a" [] false, .createTable "b" [] false]).2

/-- A restart: a query engine constructed on the catalog file that the sample
catalog engine saved. -/
def sampleRestartedEngine : QueryEngine :=
  QueryEngine.construct (StorageEngine.new "data" sampleDisk) sampleCatalogEngine.catalogFile
    true sampleCatalogIndeterminate

/-- A zeroed page whose checksum field holds 1. -/
def sampleBadChecksumPage : Page :=
  { Page.zero with header := { Page.zero.header with checksum := 1 } }

/-- An initialised page of table 1 with page id `2^19`. -/
def sampleFarPage : Page := Page.initialize Page.zero 524288 1

/-- A commit record of transaction 1 whose own `lsn` member holds 7. -/
def sampleRecord : WALRecord :=
  { type := .COMMIT_TXN, lsn := 7, txnId := 1, length := 0, data := [] }

/-- An insert record with a one-byte payload. -/
def samplePayloadRecord : WALRecord :=
  { type := .INSERT, lsn := 5, txnId := 1, length := 1, data := [42] }

/-- A value of type binary holding three bytes. -/
def sampleBinary : Value := { Value.null with type := .TYPE_BINARY, binaryVal := [1, 2, 3] }

/-- A buffer pool whose counters hold `2^64 - 1` hits and 2 misses. -/
def sampleWrappedPool : BufferPool :=
  { BufferPool.new 0 with hits := 2 ^ 64 - 1, misses := 2 }

/-- A buffer pool with 3 hits and 1 miss. -/
def sampleCountedPool : BufferPool := { BufferPool.new 0 with hits := 3, misses := 1 }

/-! ## Reachable buffer pools -/

/-- The buffer pools that the constructor produces and that calls of
`getPage`, `markDirty` and `flushAll` lead to. -/
inductive BufferPool.Reachable : BufferPool → Prop
  | new (sizeMB : Nat) : BufferPool.Reachable (BufferPool.new sizeMB)
  | getPage {bp : BufferPool} (tableId pageId now : Nat) :
      BufferPool.Reachable bp → BufferPool.Reachable (bp.getPage tableId pageId now).2
  | markDirty {bp : BufferPool} (tableId pageId : Nat) :
      BufferPool.Reachable bp → BufferPool.Reachable (bp.markDirty tableId pageId)
  | flushAll {bp : BufferPool} :
      BufferPool.Reachable bp → BufferPool.Reachable bp.flushAll

/-- The pool after `n` calls `getPage(tableId, pageId)` in a row. -/
def BufferPool.getPages (bp : BufferPool) (tableId pageId now : Nat) : Nat → BufferPool
  | 0 => bp
  | n + 1 => ((BufferPool.getPages bp tableId pageId now n).getPage tableId pageId now).2

/-- A one-megabyte pool after `getPage(1, 0)`, `markDirty(1, 0)` and
`flushAll()`. -/
def sampleMissedPool : BufferPool :=
  (((BufferPool.new 1).getPage 1 0 0).2.markDirty 1 0).flushAll

/-- A one-megabyte pool after `2^64 - 1` calls `getPage(1, 0)`. -/
def sampleSaturatedPool : BufferPool :=
  (BufferPool.new 1).getPages 1 0 0 18446744073709551615

/-! ## A log without an open segment -/

theorem leBytes_length (n x : Nat) : (leBytes n x).length = n := by
  simp [leBytes]

theorem leBytes_two (x : Nat) : leBytes 2 x = [x % 256, x / 256 % 256] := by
  simp [leBytes, List.range_succ]

theorem leBytes_four (x : Nat) :
    leBytes 4 x = [x % 256, x / 256 % 256, x / 65536 % 256, x / 16777216 % 256] := by
  simp [leBytes, List.range_succ]

theorem leNat_leBytes_two (x : Nat) (h : x < 2 ^ 16) : leNat (leBytes 2 x) = x := by
  rw [leBytes_two]
  simp only [leNat]
  omega

theorem leNat_leBytes_four (x : Nat) (h : x < 2 ^ 32) : leNat (leBytes 4 x) = x := by
  rw [leBytes_four]
  simp only [leNat]
  omega

theorem mapFind_mapInsert_self {κ ν : Type} [DecidableEq κ] (m : List (κ × ν)) (k : κ) (v : ν) :
    mapFind (mapInsert m k v) k = some v := by
  induction m with
  | nil => simp [mapInsert, mapFind]
  | cons e m ih =>
      obtain ⟨k', v'⟩ := e
      by_cases hk : k' = k
      · simp [mapInsert, mapFind, hk]
      · simp [mapInsert, mapFind, hk, ih]

theorem mapFind_mapInsert_ne {κ ν : Type} [DecidableEq κ] (m : List (κ × ν)) (k k2 : κ) (v : ν)
    (h : k ≠ k2) : mapFind (mapInsert m k v) k2 = mapFind m k2 := by
  induction m with
  | nil => simp [mapInsert, mapFind, h]
  | cons e m ih =>
      obtain ⟨k', v'⟩ := e
      by_cases hk : k' = k
      · subst hk
        simp [mapInsert, mapFind, h]
      · by_cases hk2 : k' = k2
        · subst hk2
          simp [mapInsert, mapFind, hk]
        · simp [mapInsert, mapFind, hk, hk2, ih]

theorem mapFind_mapErase_self {κ ν : Type} [DecidableEq κ] (m : List (κ × ν)) (k : κ) :
    mapFind (mapErase m k) k = none := by
  induction m with
  | nil => simp [mapErase, mapFind]
  | cons e m ih =>
      obtain ⟨k', v'⟩ := e
      by_cases hk : k' = k
      · simpa [mapErase, List.filter_cons, hk] using ih
      · simpa [mapErase, List.filter_cons, hk, mapFind] using ih

theorem mapFind_mapErase_ne {κ ν : Type} [DecidableEq κ] (m : List (κ × ν)) (k k2 : κ)
    (h : k ≠ k2) : mapFind (mapErase m k) k2 = mapFind m k2 := by
  induction m with
  | nil => simp [mapErase, mapFind]
  | cons e m ih =>
      obtain ⟨k', v'⟩ := e
      by_cases hk : k' = k
      · subst hk
        simpa [mapErase, List.filter_cons, mapFind, h] using ih
      · by_cases hk2 : k' = k2
        · subst hk2
          simp [mapErase, List.filter_cons, hk, mapFind]
        · simpa [mapErase, List.filter_cons, hk, mapFind, hk2] using ih

theorem mapInsert_mapInsert {κ ν : Type} [DecidableEq κ] (m : List (κ × ν)) (k : κ) (v w : ν) :
    mapInsert (mapInsert m k v) k w = mapInsert m k w := by
  induction m with
  | nil => simp [mapInsert]
  | cons e m ih =>
      obtain ⟨k', v'⟩ := e
      by_cases hk : k' = k
      · simp [mapInsert, hk]
      · simp [mapInsert, hk, ih]

theorem mapInsert_of_mapFind {κ ν : Type} [DecidableEq κ] (m : List (κ × ν)) (k : κ) (v : ν)
    (h : mapFind m k = some v) : mapInsert m k v = m := by
  induction m with
  | nil => simp [mapFind] at h
  | cons e m ih =>
      obtain ⟨k', v'⟩ := e
      by_cases hk : k' = k
      · simp [mapFind, hk] at h
        simp [mapInsert, hk, h]
      · simp [mapFind, hk] at h
        simp [mapInsert, hk, ih h]

/-! ## Pages -/

theorem PageHeader.raw_header_length (h : PageHeader) : h.raw.length = SIZEOF_PAGE_HEADER := by
  simp [PageHeader.raw, leBytes_length, SIZEOF_PAGE_HEADER]

theorem Page.raw_length (p : Page) (h : p.data.length = PAGE_SIZE - SIZEOF_PAGE_HEADER) :
    p.raw.length = PAGE_SIZE := by
  simp [Page.raw, PageHeader.raw_header_length, h, PAGE_SIZE, SIZEOF_PAGE_HEADER]

theorem Page.raw_drop_header (p : Page) : p.raw.drop SIZEOF_PAGE_HEADER = p.data := by
  unfold Page.raw
  exact List.drop_left' (PageHeader.raw_header_length p.header)

theorem Page.ofRaw_raw (p : Page) (h : p.WF) : Page.ofRaw p.raw = p := by
  obtain ⟨h1, h2, h3, h4, h5, h6, _, _⟩ := h
  obtain ⟨⟨a, b, c, d, e, f⟩, data⟩ := p
  simp only at h1 h2 h3 h4 h5 h6
  have hd : (Page.raw ⟨⟨a, b, c, d, e, f⟩, data⟩).drop SIZEOF_PAGE_HEADER = data :=
    Page.raw_drop_header _
  simp only [Page.ofRaw, hd]
  simp only [Page.raw, PageHeader.raw, leBytes_four, leBytes_two, List.cons_append,
    List.nil_append, List.take, List.drop, Page.mk.injEq, PageHeader.mk.injEq, and_true, leNat]
  have ha := leNat_leBytes_four a h1
  have hb := leNat_leBytes_four b h2
  have hc := leNat_leBytes_two c h3
  have hd2 := leNat_leBytes_two d h4
  have he := leNat_leBytes_four e h5
  have hf := leNat_leBytes_four f h6
  simp only [leBytes_four, leBytes_two, leNat] at ha hb hc hd2 he hf
  exact ⟨ha, hb, hc, hd2, he, hf⟩

theorem foldl_add_mod (m : Nat) (l : List Nat) (a : Nat) :
    l.foldl (fun sum b => (sum + b) % m) (a % m) = (a + l.sum) % m := by
  induction l generalizing a with
  | nil => simp
  | cons x l ih =>
      simp only [List.foldl_cons, List.sum_cons]
      rw [Nat.mod_add_mod, ih, Nat.add_assoc]

theorem Page.calculateChecksum_eq (p : Page) :
    p.calculateChecksum = (p.data.take (PAGE_SIZE - SIZEOF_PAGE_HEADER)).sum % 2 ^ 32 := by
  unfold Page.calculateChecksum
  rw [Page.raw_drop_header]
  have h := foldl_add_mod (2 ^ 32) (p.data.take (PAGE_SIZE - SIZEOF_PAGE_HEADER)) 0
  simpa using h

theorem sum_set_add (l : List Nat) (i b : Nat) (h : i < l.length) :
    (l.set i b).sum + l.getD i 0 = l.sum + b := by
  induction l generalizing i with
  | nil => simp at h
  | cons x l ih =>
      cases i with
      | zero => simp; omega
      | succ i =>
          have hi : i < l.length := by simpa using h
          have := ih i hi
          simp only [List.set_cons_succ, List.sum_cons, List.getD_cons_succ]
          omega

theorem read_writeAt (content : List Nat) (offset : Nat) (bytes : List Nat) :
    ((writeAt content offset bytes).drop offset).take bytes.length = bytes := by
  unfold writeAt
  have hlen : ((content ++ List.replicate (offset - content.length) 0).take offset).length
      = offset := by
    simp only [List.length_take, List.length_append, List.length_replicate]
    omega
  rw [List.append_assoc, List.drop_left' hlen, List.take_left]

/-! ## Values -/

/-- C1 (fails on the code): serialising a value and deserialising the bytes
should give back an equal value.  `Value::deserialize` returns a default
(null) value whatever the bytes are, and `operator==` is false on a null
operand, so the round trip compares unequal: at `Value(true)`, and for every
value. -/
theorem value_roundtrip_never_equal :
    (Value.ofBool true).serialize = [1, 1] ∧
    (Value.deserialize (Value.ofBool true).serialize 0).1 = Value.null ∧
    Value.eq (Value.deserialize (Value.ofBool true).serialize 0).1 (Value.ofBool true) = false ∧
    ∀ v : Value, Value.eq (Value.deserialize v.serialize 0).1 v = false := by
  refine ⟨by decide, rfl, by decide, ?_⟩
  intro v
  simp only [Value.deserialize, Value.eq, Value.null]
  split <;> rfl

/-! ## Page store -/

theorem BufferPool.getPage_pageMap (bp : BufferPool) (t p now : Nat) :
    (bp.getPage t p now).2.pageMap = bp.pageMap := by
  unfold BufferPool.getPage
  split <;> rfl

theorem BufferPool.markDirty_pageMap (bp : BufferPool) (t p : Nat) :
    (bp.markDirty t p).pageMap = bp.pageMap := by
  unfold BufferPool.markDirty
  split <;> rfl

theorem BufferPool.getPage_miss (bp : BufferPool) (t p now : Nat) (h : bp.pageMap = []) :
    (bp.getPage t p now).1 = none := by
  simp [BufferPool.getPage, h, mapFind]

theorem StorageEngine.readPage_pageMap (s : StorageEngine) (t p now : Nat) :
    (s.readPage t p now).2.bufferPool.pageMap = s.bufferPool.pageMap := by
  have h := BufferPool.getPage_pageMap s.bufferPool t p now
  unfold StorageEngine.readPage
  simp only
  split
  · exact h
  · split
    · exact h
    · split <;> exact h

theorem StorageEngine.writePage_pageMap (s : StorageEngine) (t : Nat) (page : Page) :
    (s.writePage t page).2.bufferPool.pageMap = s.bufferPool.pageMap := by
  have h := BufferPool.markDirty_pageMap s.bufferPool t page.header.pageId
  unfold StorageEngine.writePage
  simp only
  split
  · exact h
  · split <;> exact h

/-- In every reachable state of the page store the page map of its buffer
pool is empty: no function of the sources adds an entry. -/
theorem StorageEngine.Reachable.pageMap_nil {s : StorageEngine} (h : s.Reachable) :
    s.bufferPool.pageMap = [] := by
  induction h with
  | new dataDir disk => rfl
  | createTable tableId _ ih =>
      unfold StorageEngine.createTable
      split <;> exact ih
  | dropTable tableId _ ih =>
      unfold StorageEngine.dropTable
      simp only
      split <;> exact ih
  | readPage tableId pageId now _ ih => rw [StorageEngine.readPage_pageMap]; exact ih
  | writePage tableId page _ ih => rw [StorageEngine.writePage_pageMap]; exact ih
  | sync _ ih => exact ih
  | getPage tableId pageId now _ ih => rw [BufferPool.getPage_pageMap]; exact ih
  | markDirty tableId pageId _ ih => rw [BufferPool.markDirty_pageMap]; exact ih
  | flushAll _ ih => exact ih
  | tamper files _ ih => exact ih

/-- What `readPage` does once the buffer pool has missed, in terms of the
stream it goes on with and the bytes of the file. -/
theorem StorageEngine.readPage_of_miss (s : StorageEngine) (t p now : Nat)
    (hmap : s.bufferPool.pageMap = []) :
    (s.readPage t p now).1 =
      if (s.stream t).failbit then none
      else
        let got := (((mapFind s.disk.files t).getD []).drop (p * PAGE_SIZE % 2 ^ 32)).take PAGE_SIZE
        let page := Page.ofRaw (got ++ List.replicate (PAGE_SIZE - got.length) 0)
        if page.verify then some page else none := by
  have hmiss := BufferPool.getPage_miss s.bufferPool t p now hmap
  have hst : ∀ bp : BufferPool,
      StorageEngine.stream { s with bufferPool := bp } t = s.stream t := fun _ => rfl
  unfold StorageEngine.readPage
  simp only [hmiss, hst]
  split_ifs <;> simp_all

theorem Page.initialize_checksum (p : Page) (pageId tableId : Nat) :
    ( Page.initialize p pageId tableId).header.checksum =
      ( Page.initialize p pageId tableId).calculateChecksum := by
  simp only [ Page.initialize, Page.calculateChecksum_eq]

theorem Page.initialize_zero_WF (pageId tableId : Nat) (h1 : pageId < 2 ^ 32)
    (h2 : tableId < 2 ^ 32) : ( Page.initialize Page.zero pageId tableId).WF := by
  have hc : ( Page.initialize Page.zero pageId tableId).header.checksum < 2 ^ 32 := by
    rw [Page.initialize_checksum, Page.calculateChecksum_eq]
    exact Nat.mod_lt _ (by norm_num)
  refine ⟨h1, h2, ?_, ?_, ?_, hc, ?_, ?_⟩
  · simp [ Page.initialize, PAGE_SIZE, SIZEOF_PAGE_HEADER]
  · simp [ Page.initialize]
  · simp [ Page.initialize]
  · simp [ Page.initialize, Page.zero]
  · intro b hb
    simp only [ Page.initialize, Page.zero, List.mem_replicate] at hb
    omega

theorem StorageEngine.stream_good (s : StorageEngine) (t : Nat)
    (hfile : (mapFind s.disk.files t).isSome = true)
    (hstream : ∀ f, mapFind s.tableFiles t = some f → f.is_open = true → f.failbit = false) :
    (s.stream t).failbit = false ∧ (s.stream t).is_open = true := by
  unfold StorageEngine.stream
  cases hf : mapFind s.tableFiles t with
  | none => simp [FStream.closed, FStream.open, hfile]
  | some f =>
      cases ho : f.is_open with
      | false => simp [ho, FStream.open, hfile]
      | true => simp [ho, hstream f hf ho]

theorem StorageEngine.stream_eq (s : StorageEngine) (t : Nat) (f : FStream)
    (h : mapFind s.tableFiles t = some f) (ho : f.is_open = true) : s.stream t = f := by
  simp [StorageEngine.stream, h, ho]

theorem StorageEngine.writePage_good (s : StorageEngine) (t : Nat) (page : Page)
    (content : List Nat) (hfile : mapFind s.disk.files t = some content)
    (hgood : (s.stream t).failbit = false) :
    s.writePage t page =
      (true,
        { s with
          bufferPool := s.bufferPool.markDirty t page.header.pageId
          tableFiles := mapInsert s.tableFiles t (s.stream t)
          disk :=
            { s.disk with
              files := mapInsert s.disk.files t
                (writeAt content (page.header.pageId * PAGE_SIZE % 2 ^ 32) page.raw) } }) := by
  have hst : ∀ bp : BufferPool,
      StorageEngine.stream { s with bufferPool := bp } t = s.stream t := fun _ => rfl
  unfold StorageEngine.writePage
  simp only [hst, hgood, hfile]
  simp

/-- C2 (amended): in a reachable state where the file of table `t` exists and
the cached stream of `t`, if open, has not failed, writing a well-formed page
`P` whose checksum field equals `calculateChecksum()` succeeds, and the
`readPage` of `P.header.pageId` that follows returns a page equal to `P`, byte
for byte over all `PAGE_SIZE` bytes, whose checksum field equals the checksum
of its payload. -/
theorem write_then_read_page (s : StorageEngine) (t now : Nat) (P : Page)
    (hs : s.Reachable) (hfile : (mapFind s.disk.files t).isSome = true)
    (hstream : ∀ f, mapFind s.tableFiles t = some f → f.is_open = true → f.failbit = false)
    (hP : P.WF) (hsum : P.header.checksum = P.calculateChecksum) :
    (s.writePage t P).1 = true ∧
    ∃ Q, ((s.writePage t P).2.readPage t P.header.pageId now).1 = some Q ∧
      Q = P ∧ Q.raw = P.raw ∧ Q.raw.length = PAGE_SIZE ∧
      Q.header.checksum = Q.calculateChecksum := by
  obtain ⟨content, hc⟩ := Option.isSome_iff_exists.mp hfile
  obtain ⟨hgood, hopen⟩ := s.stream_good t hfile hstream
  have hlen : P.raw.length = PAGE_SIZE := P.raw_length hP.2.2.2.2.2.2.1
  rw [s.writePage_good t P content hc hgood]
  refine ⟨rfl, P, ?_, rfl, rfl, hlen, hsum⟩
  rw [StorageEngine.readPage_of_miss _ _ _ _
    ((BufferPool.markDirty_pageMap _ _ _).trans hs.pageMap_nil)]
  have hst := StorageEngine.stream_eq
    { s with
      bufferPool := s.bufferPool.markDirty t P.header.pageId
      tableFiles := mapInsert s.tableFiles t (s.stream t)
      disk :=
        { s.disk with
          files := mapInsert s.disk.files t
            (writeAt content (P.header.pageId * PAGE_SIZE % 2 ^ 32) P.raw) } }
    t (s.stream t) (mapFind_mapInsert_self _ _ _) hopen
  have hread := read_writeAt content (P.header.pageId * PAGE_SIZE % 2 ^ 32) P.raw
  rw [hlen] at hread
  have hver : P.verify = true := by simp [Page.verify, hsum]
  simp only [hst, hgood, mapFind_mapInsert_self, Option.getD_some, hread, hlen,
    Nat.sub_self, List.replicate_zero, List.append_nil, Page.ofRaw_raw P hP, hver]
  simp

theorem take_set_ge (l : List Nat) (n m a : Nat) (h : n ≤ m) :
    (l.set m a).take n = l.take n := by
  rw [List.set_take, List.set_eq_of_length_le (by simp only [List.length_take]; omega)]

theorem Page.ofRaw_set_payload (raw : List Nat) (i b : Nat) :
    (Page.ofRaw (raw.set (SIZEOF_PAGE_HEADER + i) b)).header = (Page.ofRaw raw).header ∧
    (Page.ofRaw (raw.set (SIZEOF_PAGE_HEADER + i) b)).data = (Page.ofRaw raw).data.set i b := by
  constructor
  · simp only [Page.ofRaw, SIZEOF_PAGE_HEADER, List.drop_set, List.set_take.symm]
    have e1 : ¬ (20 + i < 4) := by omega
    have e2 : ¬ (20 + i < 8) := by omega
    have e3 : ¬ (20 + i < 10) := by omega
    have e4 : ¬ (20 + i < 12) := by omega
    have e5 : ¬ (20 + i < 16) := by omega
    simp only [e1, e2, e3, e4, e5, if_false]
    simp (disch := omega) only [take_set_ge]
  · simp [Page.ofRaw, SIZEOF_PAGE_HEADER, List.drop_set]

/-- A page image that verifies stops verifying when one payload byte of it is
replaced by a different byte. -/
theorem Page.verify_set_payload (raw : List Nat) (i b : Nat)
    (hlen : raw.length = PAGE_SIZE) (hv : (Page.ofRaw raw).verify = true)
    (hi : i < PAGE_SIZE - SIZEOF_PAGE_HEADER) (hb : b < 256)
    (hold : raw.getD (SIZEOF_PAGE_HEADER + i) 0 < 256)
    (hne : b ≠ raw.getD (SIZEOF_PAGE_HEADER + i) 0) :
    (Page.ofRaw (raw.set (SIZEOF_PAGE_HEADER + i) b)).verify = false := by
  obtain ⟨hh, hd⟩ := Page.ofRaw_set_payload raw i b
  have hdl : (Page.ofRaw raw).data.length = PAGE_SIZE - SIZEOF_PAGE_HEADER := by
    simp [Page.ofRaw, hlen]
  have hsum := sum_set_add (Page.ofRaw raw).data i b (by omega)
  have hget : (Page.ofRaw raw).data.getD i 0 = raw.getD (SIZEOF_PAGE_HEADER + i) 0 := by
    simp [Page.ofRaw, List.getElem?_drop]
  simp only [Page.verify, beq_iff_eq, Page.calculateChecksum_eq] at hv
  rw [List.take_of_length_le (by omega)] at hv
  simp only [Page.verify, Page.calculateChecksum_eq, hh, hd, beq_eq_false_iff_ne, ne_eq]
  rw [List.take_of_length_le (by simp only [List.length_set]; omega), hv]
  rw [hget] at hsum
  omega

/-- C3: a page stored in the file of table `t` at the slot `readPage`
addresses for `pageId` verifies; one byte of its payload is then replaced on
disk by a different byte.  `readPage` of that page returns no page, whatever
the state of the engine otherwise is. -/
theorem corrupt_payload_byte_detected (s : StorageEngine) (t pageId now : Nat)
    (content : List Nat) (i b : Nat)
    (hs : s.Reachable) (hfile : mapFind s.disk.files t = some content)
    (hbytes : ∀ x ∈ content, x < 256)
    (hslot : pageId * PAGE_SIZE % 2 ^ 32 + PAGE_SIZE ≤ content.length)
    (hvalid : (Page.ofRaw ((content.drop (pageId * PAGE_SIZE % 2 ^ 32)).take PAGE_SIZE)).verify
      = true)
    (hi : i < PAGE_SIZE - SIZEOF_PAGE_HEADER) (hb : b < 256)
    (hne : b ≠ content.getD (pageId * PAGE_SIZE % 2 ^ 32 + SIZEOF_PAGE_HEADER + i) 0) :
    ((s.tamper (mapInsert s.disk.files t
        (content.set (pageId * PAGE_SIZE % 2 ^ 32 + SIZEOF_PAGE_HEADER + i) b))).readPage
      t pageId now).1 = none := by
  have _ := hfile
  rw [StorageEngine.readPage_of_miss _ _ _ _ (StorageEngine.Reachable.tamper _ hs).pageMap_nil]
  split
  · rfl
  · generalize hoff : pageId * PAGE_SIZE % 2 ^ 32 = off at *
    have hgot : ((content.set (off + SIZEOF_PAGE_HEADER + i) b).drop off).take PAGE_SIZE =
        ((content.drop off).take PAGE_SIZE).set (SIZEOF_PAGE_HEADER + i) b := by
      rw [List.drop_set, if_neg (by omega), List.set_take]
      congr 2
      omega
    have hlen : ((content.drop off).take PAGE_SIZE).length = PAGE_SIZE := by
      simp only [List.length_take, List.length_drop]
      omega
    have hgetD : ((content.drop off).take PAGE_SIZE).getD (SIZEOF_PAGE_HEADER + i) 0 =
        content.getD (off + SIZEOF_PAGE_HEADER + i) 0 := by
      have : SIZEOF_PAGE_HEADER + i < PAGE_SIZE := by
        simp only [PAGE_SIZE, SIZEOF_PAGE_HEADER] at hi ⊢
        omega
      simp only [List.getD_eq_getElem?_getD, List.getElem?_take_of_lt this, List.getElem?_drop,
        Nat.add_assoc]
    have hold : content.getD (off + SIZEOF_PAGE_HEADER + i) 0 < 256 := by
      have hk : off + SIZEOF_PAGE_HEADER + i < content.length := by
        simp only [PAGE_SIZE, SIZEOF_PAGE_HEADER] at hi hslot ⊢
        omega
      rw [List.getD_eq_getElem?_getD, List.getElem?_eq_getElem hk]
      exact hbytes _ (List.getElem_mem hk)
    have hfalse := Page.verify_set_payload ((content.drop off).take PAGE_SIZE) i b hlen hvalid hi
      hb (hgetD ▸ hold) (hgetD ▸ hne)
    simp only [StorageEngine.tamper, mapFind_mapInsert_self, Option.getD_some, hgot,
      List.length_set, hlen, Nat.sub_self, List.replicate_zero, List.append_nil, hfalse]
    simp

/-- C4: in every reachable state, a page that `readPage` returns has a
checksum field equal to `calculateChecksum()`, which is the sum modulo `2^32`
of the bytes of its payload: a page whose stored checksum does not match is
not returned. -/
theorem readPage_returns_verified (s : StorageEngine) (t pageId now : Nat) (p : Page)
    (hs : s.Reachable) (h : (s.readPage t pageId now).1 = some p) :
    p.verify = true ∧ p.header.checksum = p.calculateChecksum ∧
      p.header.checksum = p.data.sum % 2 ^ 32 := by
  rw [StorageEngine.readPage_of_miss _ _ _ _ hs.pageMap_nil] at h
  split at h
  · cases h
  · simp only at h
    split at h
    · rename_i hv
      have hp := Option.some.inj h
      have hdl : p.data.length ≤ PAGE_SIZE - SIZEOF_PAGE_HEADER := by
        rw [← hp]
        simp only [Page.ofRaw, List.length_drop, List.length_append, List.length_take,
          List.length_replicate, PAGE_SIZE, SIZEOF_PAGE_HEADER]
        omega
      rw [hp] at hv
      have hc : p.header.checksum = p.calculateChecksum := by
        simpa [Page.verify] using hv
      refine ⟨hv, hc, ?_⟩
      rw [hc, Page.calculateChecksum_eq, List.take_of_length_le hdl]
    · cases h

theorem leBytes_lt (n x : Nat) : ∀ b ∈ leBytes n x, b < 256 := by
  intro b hb
  simp only [leBytes, List.mem_map] at hb
  obtain ⟨i, _, rfl⟩ := hb
  exact Nat.mod_lt _ (by norm_num)

theorem Page.raw_lt (p : Page) (h : p.WF) : ∀ b ∈ p.raw, b < 256 := by
  intro b hb
  simp only [Page.raw, PageHeader.raw, List.mem_append] at hb
  rcases hb with ((((((hb | hb) | hb) | hb) | hb) | hb) | hb)
  on_goal 7 => exact h.2.2.2.2.2.2.2 b hb
  all_goals exact leBytes_lt _ _ b hb

theorem samplePage_WF : samplePage.WF :=
  Page.initialize_zero_WF 0 1 (by norm_num) (by norm_num)

theorem sampleEngine_reachable : sampleEngine.Reachable :=
  StorageEngine.Reachable.createTable 1 (StorageEngine.Reachable.new "data" sampleDisk)

theorem sampleEngine_file : mapFind sampleEngine.disk.files 1 = some samplePage.raw := rfl

/-- A well-formed page that verifies and lies in the file of `t` at the slot
of `pageId` is what `readPage` returns when the stream of `t` is good. -/
theorem StorageEngine.readPage_stored (s : StorageEngine) (t pageId now : Nat) (P : Page)
    (content : List Nat) (hmap : s.bufferPool.pageMap = [])
    (hfile : mapFind s.disk.files t = some content) (hgood : (s.stream t).failbit = false)
    (hslot : (content.drop (pageId * PAGE_SIZE % 2 ^ 32)).take PAGE_SIZE = P.raw)
    (hP : P.WF) (hver : P.verify = true) : (s.readPage t pageId now).1 = some P := by
  rw [StorageEngine.readPage_of_miss _ _ _ _ hmap]
  have hlen : P.raw.length = PAGE_SIZE := P.raw_length hP.2.2.2.2.2.2.1
  simp only [hgood, hfile, Option.getD_some, hslot, hlen, Nat.sub_self, List.replicate_zero,
    List.append_nil, Page.ofRaw_raw P hP, hver]
  simp

theorem samplePage_verify : samplePage.verify = true := by
  simp [Page.verify, samplePage, Page.initialize_checksum]

theorem samplePage_slot :
    (samplePage.raw.drop (0 * PAGE_SIZE % 2 ^ 32)).take PAGE_SIZE = samplePage.raw := by
  show (samplePage.raw.drop 0).take PAGE_SIZE = samplePage.raw
  rw [List.drop_zero]
  exact List.take_of_length_le
    (Nat.le_of_eq (samplePage.raw_length samplePage_WF.2.2.2.2.2.2.1))

theorem Page.raw_getD_payload (p : Page) (i : Nat) :
    p.raw.getD (SIZEOF_PAGE_HEADER + i) 0 = p.data.getD i 0 := by
  have h := PageHeader.raw_header_length p.header
  simp only [Page.raw, List.getD_eq_getElem?_getD]
  rw [List.getElem?_append_right (by omega)]
  simp [h]

theorem samplePage_first_byte :
    1 ≠ samplePage.raw.getD (0 * PAGE_SIZE % 2 ^ 32 + SIZEOF_PAGE_HEADER + 0) 0 := by
  show 1 ≠ samplePage.raw.getD (SIZEOF_PAGE_HEADER + 0) 0
  have hd : samplePage.data = List.replicate (PAGE_SIZE - SIZEOF_PAGE_HEADER) 0 := rfl
  rw [Page.raw_getD_payload, hd, List.getD_eq_getElem?_getD, List.getElem?_replicate]
  simp [PAGE_SIZE, SIZEOF_PAGE_HEADER]

theorem sampleEngine_readPage : (sampleEngine.readPage 1 0 0).1 = some samplePage :=
  StorageEngine.readPage_stored sampleEngine 1 0 0 samplePage samplePage.raw
    sampleEngine_reachable.pageMap_nil sampleEngine_file rfl samplePage_slot samplePage_WF
    samplePage_verify

theorem StorageEngine.readPage_disk (s : StorageEngine) (t p now : Nat) :
    (s.readPage t p now).2.disk = s.disk := by
  unfold StorageEngine.readPage
  simp only
  split
  · rfl
  · split
    · rfl
    · split <;> rfl

/-- The stream `readPage` leaves in `tableFiles` after a miss of the buffer
pool on a good stream: `failbit` is set exactly when the file ends before the
page does. -/
theorem StorageEngine.readPage_tableFiles (s : StorageEngine) (t p now : Nat)
    (hmap : s.bufferPool.pageMap = []) (hgood : (s.stream t).failbit = false) :
    (s.readPage t p now).2.tableFiles =
      mapInsert s.tableFiles t
        { is_open := (s.stream t).is_open
          failbit := decide
            (((((mapFind s.disk.files t).getD []).drop (p * PAGE_SIZE % 2 ^ 32)).take
              PAGE_SIZE).length < PAGE_SIZE) } := by
  have hmiss := BufferPool.getPage_miss s.bufferPool t p now hmap
  have hst : ∀ bp : BufferPool,
      StorageEngine.stream { s with bufferPool := bp } t = s.stream t := fun _ => rfl
  unfold StorageEngine.readPage
  simp only [hmiss, hst, hgood, Bool.false_eq_true, if_false]
  split <;> rfl

theorem StorageEngine.writePage_failed (s : StorageEngine) (t : Nat) (page : Page)
    (hfail : (s.stream t).failbit = true) :
    s.writePage t page =
      (false,
        { s with
          bufferPool := s.bufferPool.markDirty t page.header.pageId
          tableFiles := mapInsert s.tableFiles t (s.stream t) }) := by
  have hst : ∀ bp : BufferPool,
      StorageEngine.stream { s with bufferPool := bp } t = s.stream t := fun _ => rfl
  unfold StorageEngine.writePage
  simp only [hst, hfail, if_true]

theorem sampleEngine_short_read_stream :
    (sampleEngine.readPage 1 1 0).2.stream 1 = { is_open := true, failbit := true } := by
  have hlen : samplePage.raw.length = PAGE_SIZE :=
    samplePage.raw_length samplePage_WF.2.2.2.2.2.2.1
  have hshort : (((((mapFind sampleEngine.disk.files 1).getD []).drop
      (1 * PAGE_SIZE % 2 ^ 32)).take PAGE_SIZE).length < PAGE_SIZE) := by
    rw [sampleEngine_file]
    simp only [Option.getD_some, List.length_take, List.length_drop, hlen]
    decide
  have hopen : (sampleEngine.stream 1).is_open = true := rfl
  have hfiles := StorageEngine.readPage_tableFiles sampleEngine 1 1 0
    sampleEngine_reachable.pageMap_nil rfl
  rw [decide_eq_true hshort, hopen] at hfiles
  apply StorageEngine.stream_eq
  · rw [hfiles]
    exact mapFind_mapInsert_self _ _ _
  · rfl

/-- C2 as stated fails: after `createTable(1)` and a `readPage(1, 1)` past the
end of the file, the state is reachable, the file of table 1 exists and the
sample page is well-formed with a matching checksum, yet `writePage` returns
false (the failed read left `failbit` set on the cached stream), and so does
the `readPage` that follows. -/
theorem write_fails_after_short_read :
    sampleEngineAfterShortRead.Reachable ∧
    (mapFind sampleEngineAfterShortRead.disk.files 1).isSome = true ∧
    samplePage.WF ∧ samplePage.header.checksum = samplePage.calculateChecksum ∧
    (sampleEngineAfterShortRead.writePage 1 samplePage).1 = false ∧
    ((sampleEngineAfterShortRead.writePage 1 samplePage).2.readPage 1
      samplePage.header.pageId 0).1 = none := by
  unfold sampleEngineAfterShortRead
  have hreach : (sampleEngine.readPage 1 1 0).2.Reachable :=
    StorageEngine.Reachable.readPage 1 1 0 sampleEngine_reachable
  have hfail : ((sampleEngine.readPage 1 1 0).2.stream 1).failbit = true := by
    rw [sampleEngine_short_read_stream]
  have hw := StorageEngine.writePage_failed (sampleEngine.readPage 1 1 0).2 1 samplePage hfail
  refine ⟨hreach, ?_, samplePage_WF, Page.initialize_checksum _ 0 1, ?_, ?_⟩
  · rw [StorageEngine.readPage_disk, sampleEngine_file]
    rfl
  · rw [hw]
  · rw [StorageEngine.readPage_of_miss _ _ _ _
      (StorageEngine.Reachable.writePage 1 samplePage hreach).pageMap_nil]
    have hst : (((sampleEngine.readPage 1 1 0).2.writePage 1 samplePage).2.stream 1).failbit
        = true := by
      rw [hw]
      rw [StorageEngine.stream_eq _ 1 ((sampleEngine.readPage 1 1 0).2.stream 1)
        (mapFind_mapInsert_self _ _ _) (by rw [sampleEngine_short_read_stream])]
      exact hfail
    rw [if_pos hst]

/-- The hypotheses of `write_then_read_page` hold in the sample page store,
for table 1 and the sample page. -/
theorem write_then_read_page_witness :
    sampleEngine.Reachable ∧ samplePage.WF ∧
    ((sampleEngine.writePage 1 samplePage).1 = true ∧
    ∃ Q, ((sampleEngine.writePage 1 samplePage).2.readPage 1 samplePage.header.pageId 0).1
        = some Q ∧
      Q = samplePage ∧ Q.raw = samplePage.raw ∧ Q.raw.length = PAGE_SIZE ∧
      Q.header.checksum = Q.calculateChecksum) :=
  ⟨sampleEngine_reachable, samplePage_WF,
    write_then_read_page sampleEngine 1 0 samplePage sampleEngine_reachable rfl
      (fun f h _ => by cases h) samplePage_WF (Page.initialize_checksum _ 0 1)⟩

/-- The hypotheses of `corrupt_payload_byte_detected` hold for page 0 of
table 1 in the sample page store, when the first payload byte, a zero, is
replaced by 1. -/
theorem corrupt_payload_byte_detected_witness :
    ((sampleEngine.tamper (mapInsert sampleEngine.disk.files 1
        (samplePage.raw.set (0 * PAGE_SIZE % 2 ^ 32 + SIZEOF_PAGE_HEADER + 0) 1))).readPage
      1 0 0).1 = none :=
  corrupt_payload_byte_detected sampleEngine 1 0 0 samplePage.raw 0 1 sampleEngine_reachable
    sampleEngine_file (Page.raw_lt _ samplePage_WF)
    (by rw [samplePage.raw_length samplePage_WF.2.2.2.2.2.2.1]; decide)
    (by rw [samplePage_slot, Page.ofRaw_raw _ samplePage_WF]; exact samplePage_verify)
    (by decide) (by decide) samplePage_first_byte

/-- The hypotheses of `readPage_returns_verified` hold for page 0 of table 1
in the sample page store. -/
theorem readPage_returns_verified_witness :
    (sampleEngine.readPage 1 0 0).1 = some samplePage ∧
    (samplePage.verify = true ∧ samplePage.header.checksum = samplePage.calculateChecksum ∧
      samplePage.header.checksum = samplePage.data.sum % 2 ^ 32) :=
  ⟨sampleEngine_readPage,
    readPage_returns_verified sampleEngine 1 0 0 samplePage sampleEngine_reachable
      sampleEngine_readPage⟩

/-! ## Write-ahead log -/

theorem WALManager.appendRecords_lsns (w : WALManager) (records : List WALRecord)
    (h : w.currentLSN + records.length < 2 ^ 64) :
    (w.appendRecords records).1 = List.range' w.currentLSN records.length ∧
    (w.appendRecords records).2.currentLSN = w.currentLSN + records.length := by
  induction records generalizing w with
  | nil => simp [WALManager.appendRecords]
  | cons r rs ih =>
      have hlt : w.currentLSN + 1 < 2 ^ 64 := by
        simp only [List.length_cons] at h
        omega
      have hstep : (w.appendRecord r).2.currentLSN = w.currentLSN + 1 := by
        simp only [WALManager.appendRecord]
        exact Nat.mod_eq_of_lt hlt
      have hrec := ih (w.appendRecord r).2 (by
        rw [hstep]
        simp only [List.length_cons] at h
        omega)
      rw [hstep] at hrec
      simp only [WALManager.appendRecords, List.length_cons, List.range'_succ]
      refine ⟨?_, ?_⟩
      · rw [hrec.1]
        rfl
      · rw [hrec.2]
        omega

theorem WALManager.appendRecords_append (w : WALManager) (pre post : List WALRecord) :
    (w.appendRecords (pre ++ post)).1 =
      (w.appendRecords pre).1 ++ ((w.appendRecords pre).2.appendRecords post).1 := by
  induction pre generalizing w with
  | nil => simp [WALManager.appendRecords]
  | cons r rs ih => simp [WALManager.appendRecords, ih]

/-- C5: on a freshly constructed `WALManager`, for every sequence of fewer
than `2^64` `appendRecord` calls, the returned LSNs are strictly increasing in
call order (they are `0, 1, 2, ...`), and each call returns the value
`currentLSN` had before it and leaves `currentLSN` one greater. -/
theorem appendRecord_lsns_increasing (walDir : String) (segment : Option (List Nat))
    (records : List WALRecord) (h : records.length < 2 ^ 64) :
    ((WALManager.new walDir segment).appendRecords records).1.Pairwise (fun a b => a < b) ∧
    ((WALManager.new walDir segment).appendRecords records).1 = List.range records.length ∧
    ∀ (pre post : List WALRecord) (r : WALRecord), records = pre ++ r :: post →
      (((WALManager.new walDir segment).appendRecords pre).2.appendRecord r).1 =
        ((WALManager.new walDir segment).appendRecords pre).2.currentLSN ∧
      (((WALManager.new walDir segment).appendRecords pre).2.appendRecord r).2.currentLSN =
        ((WALManager.new walDir segment).appendRecords pre).2.currentLSN + 1 := by
  have h0 : (WALManager.new walDir segment).currentLSN = 0 := rfl
  have hall := WALManager.appendRecords_lsns (WALManager.new walDir segment) records
    (by rw [h0]; omega)
  rw [h0] at hall
  have hrange : ((WALManager.new walDir segment).appendRecords records).1
      = List.range records.length := by
    rw [hall.1, List.range_eq_range']
  refine ⟨?_, hrange, ?_⟩
  · rw [hrange]
    exact List.pairwise_lt_range _
  · intro pre post r hsplit
    have hlen : pre.length + 1 + post.length = records.length := by
      rw [hsplit]
      simp only [List.length_append, List.length_cons]
      omega
    have hpre := WALManager.appendRecords_lsns (WALManager.new walDir segment) pre
      (by rw [h0]; omega)
    rw [h0] at hpre
    refine ⟨rfl, ?_⟩
    simp only [WALManager.appendRecord, hpre.2]
    exact Nat.mod_eq_of_lt (by omega)

/-- Three records appended to a fresh log get the LSNs 0, 1 and 2. -/
theorem appendRecord_lsns_increasing_witness :
    (sampleWAL.appendRecords
      [⟨.BEGIN_TXN, 0, 1, 0, []⟩, ⟨.INSERT, 0, 1, 0, []⟩, ⟨.COMMIT_TXN, 0, 1, 0, []⟩]).1
      = [0, 1, 2] :=
  (appendRecord_lsns_increasing "wal" (some [])
    [⟨.BEGIN_TXN, 0, 1, 0, []⟩, ⟨.INSERT, 0, 1, 0, []⟩, ⟨.COMMIT_TXN, 0, 1, 0, []⟩]
    (by decide)).2.1

/-! ## Transaction manager -/

/-- What one call does to `txnCounter`, and which calls return an id. -/
theorem TransactionManager.step_txnCounter {W : Type} (st : TransactionManager W × W)
    (c : TxnCall W) :
    (∀ level u, c = .begin level u →
      (TransactionManager.step st c).1 = .id st.1.txnCounter ∧
      (TransactionManager.step st c).2.1.txnCounter = (st.1.txnCounter + 1) % 2 ^ 64) ∧
    ((∀ level u, c ≠ .begin level u) →
      TransactionManager.begunIds [(TransactionManager.step st c).1] = [] ∧
      (TransactionManager.step st c).2.1.txnCounter = st.1.txnCounter) := by
  constructor
  · intro level u hc
    subst hc
    exact ⟨rfl, rfl⟩
  · intro hc
    cases c with
    | begin level u => exact absurd rfl (hc level u)
    | commit txnId u =>
        simp only [TransactionManager.step, TransactionManager.commit,
          TransactionManager.begunIds, true_and]
        split
        · rfl
        · split <;> rfl
    | rollback txnId u =>
        simp only [TransactionManager.step, TransactionManager.rollback,
          TransactionManager.begunIds, true_and]
        split <;> rfl
    | addUndoAction txnId action =>
        simp only [TransactionManager.step, TransactionManager.addUndoAction,
          TransactionManager.begunIds, true_and]
        split <;> rfl

theorem TransactionManager.begunIds_cons (r : TxnResult) (rs : List TxnResult) :
    TransactionManager.begunIds (r :: rs) =
      TransactionManager.begunIds [r] ++ TransactionManager.begunIds rs := by
  cases r <;> simp [TransactionManager.begunIds]

theorem TransactionManager.run_begunIds {W : Type} (st : TransactionManager W × W)
    (calls : List (TxnCall W)) (h : st.1.txnCounter + TxnCall.beginCount calls ≤ 2 ^ 64) :
    TransactionManager.begunIds (TransactionManager.run st calls).1 =
      List.range' st.1.txnCounter (TxnCall.beginCount calls) := by
  induction calls generalizing st with
  | nil => simp [TransactionManager.run, TransactionManager.begunIds, TxnCall.beginCount]
  | cons c cs ih =>
      simp only [TransactionManager.run]
      rw [TransactionManager.begunIds_cons]
      by_cases hb : ∃ level u, c = .begin level u
      · obtain ⟨level, u, rfl⟩ := hb
        obtain ⟨h1, h2⟩ := (TransactionManager.step_txnCounter st _).1 level u rfl
        simp only [TxnCall.beginCount] at h ⊢
        rw [h1, List.range'_succ]
        simp only [TransactionManager.begunIds, List.singleton_append, List.cons.injEq, true_and]
        by_cases hz : TxnCall.beginCount cs = 0
        · rw [hz, List.range'_zero]
          have := ih (TransactionManager.step st (.begin level u)).2 (by
            rw [h2, hz]
            have := Nat.mod_lt (st.1.txnCounter + 1) (by norm_num : 2 ^ 64 > 0)
            omega)
          rw [hz, List.range'_zero] at this
          exact this
        · have hlt : st.1.txnCounter + 1 < 2 ^ 64 := by omega
          have hc : (TransactionManager.step st (.begin level u)).2.1.txnCounter
              = st.1.txnCounter + 1 := by rw [h2]; exact Nat.mod_eq_of_lt hlt
          have := ih (TransactionManager.step st (.begin level u)).2 (by rw [hc]; omega)
          rw [hc] at this
          exact this
      · have hne : ∀ level u, c ≠ .begin level u := fun level u hc => hb ⟨level, u, hc⟩
        obtain ⟨h1, h2⟩ := (TransactionManager.step_txnCounter st c).2 hne
        have hcount : TxnCall.beginCount (c :: cs) = TxnCall.beginCount cs := by
          cases c with
          | begin level u => exact absurd rfl (hne level u)
          | commit _ _ => rfl
          | rollback _ _ => rfl
          | addUndoAction _ _ => rfl
        rw [hcount] at h ⊢
        rw [h1, List.nil_append]
        have := ih (TransactionManager.step st c).2 (by rw [h2]; exact h)
        rw [h2] at this
        exact this

theorem TransactionManager.begin_replicate_ids {W : Type} (tm : TransactionManager W)
    (world : W) (level : IsolationLevel) (u : Indeterminate) (n : Nat)
    (hc : tm.txnCounter < 2 ^ 64) :
    TransactionManager.begunIds
        (TransactionManager.run (tm, world) (List.replicate n (.begin level u))).1 =
      (List.range n).map (fun k => (tm.txnCounter + k) % 2 ^ 64) := by
  induction n generalizing tm with
  | zero => simp [TransactionManager.run, TransactionManager.begunIds]
  | succ n ih =>
      have hstep : (TransactionManager.step (tm, world) (.begin level u)).2 =
          ((tm.begin level u).2, world) := rfl
      have hcnt : (tm.begin level u).2.txnCounter = (tm.txnCounter + 1) % 2 ^ 64 := rfl
      simp only [List.replicate_succ, TransactionManager.run]
      rw [TransactionManager.begunIds_cons, hstep,
        ih (tm.begin level u).2 (by rw [hcnt]; exact Nat.mod_lt _ (by norm_num)), hcnt,
        List.range_succ_eq_map]
      simp only [TransactionManager.step, TransactionManager.begunIds, List.singleton_append,
        List.map_cons, List.map_map, Nat.add_zero, List.cons.injEq]
      refine ⟨(Nat.mod_eq_of_lt hc).symm, ?_⟩
      apply List.map_congr_left
      intro k _
      simp only [Function.comp, Nat.mod_add_mod]
      congr 1
      omega

/-- C6 as stated fails: `txnCounter` is a 64-bit counter, so among `2^64`
successive `begin()` calls on a fresh manager one (the last) returns 0. -/
theorem begin_returns_zero_after_wrap :
    0 ∈ TransactionManager.begunIds
      (TransactionManager.run ((TransactionManager.new sampleWAL : TransactionManager Unit), ())
        (List.replicate (2 ^ 64) (.begin .READ_COMMITTED sampleIndeterminate))).1 := by
  rw [TransactionManager.begin_replicate_ids _ _ _ _ _
    (by show (1 : Nat) < 2 ^ 64; norm_num)]
  refine List.mem_map.mpr ⟨2 ^ 64 - 1, List.mem_range.mpr (by norm_num), ?_⟩
  show (1 + (2 ^ 64 - 1)) % 2 ^ 64 = 0
  norm_num

/-- C6 (amended): for every sequence of `begin`, `commit`, `rollback` (and
`addUndoAction`) calls on a freshly constructed manager that holds fewer than
`2^64` `begin` calls, the ids the `begin` calls return are strictly increasing
in call order (they are `1, 2, 3, ...`) and none of them is 0. -/
theorem begin_ids_increasing {W : Type} (wal : WALManager) (world : W)
    (calls : List (TxnCall W)) (h : TxnCall.beginCount calls < 2 ^ 64) :
    (TransactionManager.begunIds
      (TransactionManager.run (TransactionManager.new wal, world) calls).1).Pairwise
        (fun a b => a < b) ∧
    0 ∉ TransactionManager.begunIds
      (TransactionManager.run (TransactionManager.new wal, world) calls).1 ∧
    TransactionManager.begunIds
      (TransactionManager.run (TransactionManager.new wal, world) calls).1 =
        List.range' 1 (TxnCall.beginCount calls) := by
  have hids := TransactionManager.run_begunIds (TransactionManager.new wal, world) calls
    (by show 1 + TxnCall.beginCount calls ≤ 2 ^ 64; omega)
  have h1 : (TransactionManager.new wal : TransactionManager W).txnCounter = 1 := rfl
  simp only [h1] at hids
  rw [hids]
  refine ⟨?_, ?_, rfl⟩
  · exact List.pairwise_lt_range' 1 _
  · intro hmem
    have := (List.mem_range'_1.mp hmem).1
    omega

/-- Two `begin` calls around a `commit` on a fresh manager return 1 and 2. -/
theorem begin_ids_increasing_witness :
    TransactionManager.begunIds
      (TransactionManager.run ((TransactionManager.new sampleWAL : TransactionManager Unit), ())
        [.begin .READ_COMMITTED sampleIndeterminate, .commit 1 sampleIndeterminate,
          .begin .SERIALIZABLE sampleIndeterminate]).1 = [1, 2] :=
  (begin_ids_increasing sampleWAL ()
    [.begin .READ_COMMITTED sampleIndeterminate, .commit 1 sampleIndeterminate,
      .begin .SERIALIZABLE sampleIndeterminate] (by decide)).2.2

theorem mapFind_mem {κ ν : Type} [DecidableEq κ] (m : List (κ × ν)) (k : κ) (v : ν)
    (h : mapFind m k = some v) : (k, v) ∈ m := by
  induction m with
  | nil => simp [mapFind] at h
  | cons e m ih =>
      obtain ⟨k', v'⟩ := e
      by_cases hk : k' = k
      · simp only [mapFind, hk, if_true, Option.some.injEq] at h
        simp [hk, h]
      · simp only [mapFind, hk, if_false] at h
        exact List.mem_cons_of_mem _ (ih h)

theorem mem_mapInsert {κ ν : Type} [DecidableEq κ] (m : List (κ × ν)) (k : κ) (v : ν)
    (e : κ × ν) (h : e ∈ mapInsert m k v) : e = (k, v) ∨ e ∈ m := by
  induction m with
  | nil => simpa [mapInsert] using h
  | cons e' m ih =>
      obtain ⟨k', v'⟩ := e'
      by_cases hk : k' = k
      · simp only [mapInsert, hk, if_true, List.mem_cons] at h
        rcases h with h | h
        · exact Or.inl h
        · exact Or.inr (List.mem_cons_of_mem _ h)
      · simp only [mapInsert, hk, if_false, List.mem_cons] at h
        rcases h with h | h
        · exact Or.inr (by simp [h])
        · rcases ih h with h | h
          · exact Or.inl h
          · exact Or.inr (List.mem_cons_of_mem _ h)

theorem mem_mapErase {κ ν : Type} [DecidableEq κ] (m : List (κ × ν)) (k : κ) (e : κ × ν)
    (h : e ∈ mapErase m k) : e ∈ m :=
  (List.mem_filter.mp h).1

theorem TransactionManager.Reachable.run {W : Type} (tm : TransactionManager W) (world : W)
    (calls : List (TxnCall W)) (h : tm.Reachable) :
    (TransactionManager.run (tm, world) calls).2.1.Reachable := by
  induction calls generalizing tm world with
  | nil => exact h
  | cons c cs ih =>
      simp only [TransactionManager.run]
      exact ih _ _ (TransactionManager.Reachable.step world c h)

theorem mapFind_none_iff {κ ν : Type} [DecidableEq κ] (m : List (κ × ν)) (k : κ) :
    mapFind m k = none ↔ k ∉ mapKeys m := by
  induction m with
  | nil => simp [mapFind, mapKeys]
  | cons e m ih =>
      obtain ⟨k', v'⟩ := e
      by_cases hk : k' = k
      · simp [mapFind, mapKeys, hk]
      · have hk2 : ¬ k = k' := fun h => hk h.symm
        simpa [mapFind, mapKeys, hk, hk2] using ih

theorem mapInsert_of_absent {κ ν : Type} [DecidableEq κ] (m : List (κ × ν)) (k : κ) (v : ν)
    (h : mapFind m k = none) : mapInsert m k v = m ++ [(k, v)] := by
  induction m with
  | nil => rfl
  | cons e m ih =>
      obtain ⟨k', v'⟩ := e
      by_cases hk : k' = k
      · simp [mapFind, hk] at h
      · simp only [mapFind, hk, if_false] at h
        simp [mapInsert, hk, ih h]

theorem QueryEngine.saveCatalog_catalog (q : QueryEngine) :
    q.saveCatalog.catalog = q.catalog ∧ q.saveCatalog.tableIdCounter = q.tableIdCounter := by
  unfold QueryEngine.saveCatalog
  split <;> exact ⟨rfl, rfl⟩

/-- A successful `createTable` appends the new schema, with the old counter
as its id, and advances the counter; a failing one changes nothing. -/
theorem QueryEngine.createTable_cases (q : QueryEngine) (name : String)
    (columns : List ColumnDef) (docMode : Bool) :
    ((q.createTable name columns docMode).1 = false ∧ q.createTable name columns docMode = (false, q)) ∨
    ((q.createTable name columns docMode).1 = true ∧ mapFind q.catalog name = none ∧
      (q.createTable name columns docMode).2.catalog =
        q.catalog ++ [(name, TableSchema.mk q.tableIdCounter name columns "" docMode 0)] ∧
      (q.createTable name columns docMode).2.tableIdCounter = (q.tableIdCounter + 1) % 2 ^ 32) := by
  cases hfind : mapFind q.catalog name with
  | some schema =>
      left
      simp [QueryEngine.createTable, hfind]
  | none =>
      right
      simp only [QueryEngine.createTable, hfind, Option.isSome_none, Bool.false_eq_true,
        if_false, true_and]
      rw [(QueryEngine.saveCatalog_catalog _).1, (QueryEngine.saveCatalog_catalog _).2]
      exact ⟨mapInsert_of_absent _ _ _ hfind, rfl⟩

theorem QueryEngine.dropTable_catalog (q : QueryEngine) (name : String) :
    ((q.dropTable name).2.catalog = q.catalog ∨
      (q.dropTable name).2.catalog = mapErase q.catalog name) ∧
    (q.dropTable name).2.tableIdCounter = q.tableIdCounter := by
  unfold QueryEngine.dropTable
  split
  · exact ⟨Or.inl rfl, rfl⟩
  · simp only
    rw [(QueryEngine.saveCatalog_catalog _).1, (QueryEngine.saveCatalog_catalog _).2]
    exact ⟨Or.inr rfl, rfl⟩

theorem QueryEngine.assignedIds_cons (r : DDLResult) (rs : List DDLResult) :
    QueryEngine.assignedIds (r :: rs) =
      QueryEngine.assignedIds [r] ++ QueryEngine.assignedIds rs := by
  cases r with
  | created ok tableId =>
      cases ok <;> cases tableId <;> simp [QueryEngine.assignedIds]
  | dropped ok => simp [QueryEngine.assignedIds]

theorem QueryEngine.createCount_cons (r : DDLResult) (rs : List DDLResult) :
    QueryEngine.createCount (r :: rs) =
      QueryEngine.createCount [r] + QueryEngine.createCount rs := by
  cases r with
  | created ok tableId =>
      cases ok <;> simp [QueryEngine.createCount]
      omega
  | dropped ok => simp [QueryEngine.createCount]

/-- One DDL call keeps the catalog invariant, as long as the counter does not
wrap; a successful `createTable` is assigned the old counter as its id. -/
theorem QueryEngine.ddlStep_inv (q : QueryEngine) (c : DDLCall) (hinv : q.CatalogInv)
    (h : q.tableIdCounter + QueryEngine.createCount [(q.ddlStep c).1] < 2 ^ 32) :
    (q.ddlStep c).2.CatalogInv ∧
    (q.ddlStep c).2.tableIdCounter = q.tableIdCounter + QueryEngine.createCount [(q.ddlStep c).1] ∧
    QueryEngine.assignedIds [(q.ddlStep c).1] =
      List.range' q.tableIdCounter (QueryEngine.createCount [(q.ddlStep c).1]) := by
  obtain ⟨hkeys, hids, hnames, hlt⟩ := hinv
  cases c with
  | createTable name columns docMode =>
      rcases q.createTable_cases name columns docMode with ⟨hok, hq⟩ | ⟨hok, habs, hcat, hcnt⟩
      · simp only [QueryEngine.ddlStep, hok, hq]
        exact ⟨⟨hkeys, hids, hnames, hlt⟩, rfl, rfl⟩
      · simp only [QueryEngine.ddlStep, hok, QueryEngine.createCount] at h ⊢
        have hcnt2 : (q.createTable name columns docMode).2.tableIdCounter
            = q.tableIdCounter + 1 := by rw [hcnt]; exact Nat.mod_eq_of_lt h
        have hget : (q.createTable name columns docMode).2.getTableSchema name =
            some (TableSchema.mk q.tableIdCounter name columns "" docMode 0) := by
          unfold QueryEngine.getTableSchema
          rw [hcat, ← mapInsert_of_absent _ _ _ habs]
          exact mapFind_mapInsert_self _ _ _
        refine ⟨⟨?_, ?_, ?_, ?_⟩, hcnt2, ?_⟩
        · rw [hcat]
          simp only [mapKeys, List.map_append, List.map_cons, List.map_nil]
          exact List.Nodup.append hkeys (List.nodup_singleton _)
            (by
              simp only [List.disjoint_singleton]
              exact (mapFind_none_iff _ _).mp habs)
        · rw [hcat]
          simp only [List.map_append, List.map_cons, List.map_nil]
          refine List.Nodup.append hids (List.nodup_singleton _) ?_
          simp only [List.disjoint_singleton, List.mem_map, not_exists, not_and]
          intro e he heq
          have := hlt e he
          omega
        · intro e he
          rw [hcat] at he
          rcases List.mem_append.mp he with he | he
          · exact hnames e he
          · rw [List.mem_singleton.mp he]
        · intro e he
          rw [hcat] at he
          rw [hcnt2]
          rcases List.mem_append.mp he with he | he
          · exact Nat.lt_succ_of_lt (hlt e he)
          · rw [List.mem_singleton.mp he]
            exact Nat.lt_succ_self _
        · simp [hget, QueryEngine.assignedIds, List.range'_succ]
  | dropTable name =>
      obtain ⟨hcat, hcnt⟩ := q.dropTable_catalog name
      simp only [QueryEngine.ddlStep, QueryEngine.createCount, QueryEngine.assignedIds,
        Nat.add_zero, List.range'_zero, and_true]
      refine ⟨?_, hcnt⟩
      rcases hcat with hcat | hcat
      · exact ⟨hcat ▸ hkeys, hcat ▸ hids, hcat ▸ hnames, hcat ▸ hcnt ▸ hlt⟩
      · have hsub : List.Sublist (mapErase q.catalog name) q.catalog := List.filter_sublist _
        refine ⟨?_, ?_, ?_, ?_⟩
        · rw [hcat]
          exact List.Nodup.sublist (List.Sublist.map _ hsub) hkeys
        · rw [hcat]
          exact List.Nodup.sublist (List.Sublist.map _ hsub) hids
        · rw [hcat]
          exact fun e he => hnames e (hsub.subset he)
        · rw [hcat, hcnt]
          exact fun e he => hlt e (hsub.subset he)

theorem QueryEngine.ddlRun_inv (q : QueryEngine) (calls : List DDLCall) (hinv : q.CatalogInv)
    (h : q.tableIdCounter + QueryEngine.createCount (q.ddlRun calls).1 < 2 ^ 32) :
    (q.ddlRun calls).2.CatalogInv ∧
    QueryEngine.assignedIds (q.ddlRun calls).1 =
      List.range' q.tableIdCounter (QueryEngine.createCount (q.ddlRun calls).1) := by
  induction calls generalizing q with
  | nil => exact ⟨hinv, rfl⟩
  | cons c cs ih =>
      simp only [QueryEngine.ddlRun] at h ⊢
      rw [QueryEngine.createCount_cons] at h ⊢
      rw [QueryEngine.assignedIds_cons]
      obtain ⟨hinv1, hcnt1, hids1⟩ := q.ddlStep_inv c hinv (by omega)
      obtain ⟨hinv2, hids2⟩ := ih (q.ddlStep c).2 hinv1 (by rw [hcnt1]; omega)
      refine ⟨hinv2, ?_⟩
      rw [hids1, hids2, hcnt1, List.range'_append_1, Nat.add_comm]

/-- C10: for every sequence of `createTable` and `dropTable` calls on a query
engine that starts with an empty catalog, with fewer than `2^32 - 1`
successful creates, no two schemas of the catalog share a `tableName` or a
`tableId` (nor a key), every successful `createTable` is assigned an id, and
the assigned ids are strictly increasing in call order (they are `1, 2, 3,
...`), so no id is assigned twice, dropped or not. -/
theorem catalog_ids_unique (se : StorageEngine) (metadataWritable : Bool)
    (calls : List DDLCall)
    (h : QueryEngine.createCount ((QueryEngine.new se metadataWritable).ddlRun calls).1
      < 2 ^ 32 - 1) :
    (((QueryEngine.new se metadataWritable).ddlRun calls).2.catalog.map
      (fun e => e.2.tableName)).Nodup ∧
    (((QueryEngine.new se metadataWritable).ddlRun calls).2.catalog.map
      (fun e => e.2.tableId)).Nodup ∧
    (mapKeys ((QueryEngine.new se metadataWritable).ddlRun calls).2.catalog).Nodup ∧
    (QueryEngine.assignedIds ((QueryEngine.new se metadataWritable).ddlRun calls).1).Pairwise
      (fun a b => a < b) ∧
    QueryEngine.assignedIds ((QueryEngine.new se metadataWritable).ddlRun calls).1 =
      List.range' 1
        (QueryEngine.createCount ((QueryEngine.new se metadataWritable).ddlRun calls).1) := by
  have hinv0 : (QueryEngine.new se metadataWritable).CatalogInv := by
    refine ⟨List.nodup_nil, List.nodup_nil, ?_, ?_⟩ <;> intro e he <;> cases he
  have h1 : (QueryEngine.new se metadataWritable).tableIdCounter = 1 := rfl
  obtain ⟨⟨hkeys, hids, hnames, _⟩, hassigned⟩ :=
    QueryEngine.ddlRun_inv (QueryEngine.new se metadataWritable) calls hinv0
      (by rw [h1]; omega)
  rw [h1] at hassigned
  refine ⟨?_, hids, hkeys, ?_, hassigned⟩
  · have hmap : ((QueryEngine.new se metadataWritable).ddlRun calls).2.catalog.map
        (fun e => e.2.tableName) =
        mapKeys ((QueryEngine.new se metadataWritable).ddlRun calls).2.catalog := by
      unfold mapKeys
      exact List.map_congr_left (fun e he => hnames e he)
    rw [hmap]
    exact hkeys
  · rw [hassigned]
    exact List.pairwise_lt_range' 1 _

/-- On a fresh engine, creating `a` and `b`, dropping `a` and creating `a`
again assigns the ids 1, 2 and 3. -/
theorem catalog_ids_unique_witness :
    QueryEngine.assignedIds (sampleQueryEngine.ddlRun sampleDDL).1 = [1, 2, 3] :=
  (catalog_ids_unique (StorageEngine.new "data" sampleDisk) true sampleDDL (by decide)).2.2.2.2

/-! ## Executor -/

theorem le_foldr_max (l : List Nat) (x : Nat) (h : x ∈ l) : x ≤ l.foldr max 0 := by
  induction l with
  | nil => cases h
  | cons y l ih =>
      simp only [List.foldr_cons]
      rcases List.mem_cons.mp h with h | h
      · rw [h]
        exact Nat.le_max_left _ _
      · exact Nat.le_trans (ih h) (Nat.le_max_right _ _)

theorem freshRowId_not_mem (rows : List Tuple) :
    ∀ t ∈ rows, t.rowId ≠ freshRowId rows := by
  intro t ht
  have := le_foldr_max (rows.map (fun t => t.rowId)) t.rowId (List.mem_map_of_mem _ ht)
  unfold freshRowId
  omega

theorem findLive_some (rows : List Tuple) (rowId : Nat) (t : Tuple)
    (h : findLive rows rowId = some t) : t ∈ rows ∧ t.rowId = rowId ∧ t.deleted = false := by
  unfold findLive at h
  have hm := List.mem_of_find?_eq_some h
  have hp := List.find?_some h
  simp only [Bool.and_eq_true, decide_eq_true_eq, Bool.not_eq_true'] at hp
  exact ⟨hm, hp.1, hp.2⟩

theorem RowIdsUnique.mapInsert (tables : Tables) (table : String) (rows : List Tuple)
    (h : RowIdsUnique tables) (hrows : (rows.map (fun t => t.rowId)).Nodup) :
    RowIdsUnique (mapInsert tables table rows) := by
  intro e he
  rcases mem_mapInsert _ _ _ _ he with heq | hmem
  · rw [heq]
    exact hrows
  · exact h e hmem

/-- A row of a table with pairwise different row ids is determined by its
row id. -/
theorem eq_of_rowId_eq (rows : List Tuple) (h : (rows.map (fun t => t.rowId)).Nodup)
    (a b : Tuple) (ha : a ∈ rows) (hb : b ∈ rows) (hab : a.rowId = b.rowId) : a = b :=
  List.inj_on_of_nodup_map h ha hb hab

theorem undoInsert_insert (tables : Tables) (table : String) (rows : List Tuple) (tuple : Tuple)
    (hfind : mapFind tables table = some rows) (hfresh : tuple.rowId = freshRowId rows) :
    undoInsert table tuple.rowId (mapInsert tables table (rows ++ [tuple])) = tables := by
  have hkeep : rows.filter (fun t => decide (t.rowId ≠ tuple.rowId)) = rows := by
    rw [List.filter_eq_self]
    intro t ht
    simpa [hfresh] using freshRowId_not_mem rows t ht
  simp only [undoInsert, mapFind_mapInsert_self, List.filter_append, hkeep, mapInsert_mapInsert]
  simp [mapInsert_of_mapFind _ _ _ hfind]

theorem undoUpdate_update (tables : Tables) (table : String) (rows : List Tuple)
    (rowId : Nat) (before after : Tuple) (hfind : mapFind tables table = some rows)
    (hU : (rows.map (fun t => t.rowId)).Nodup) (hlive : findLive rows rowId = some before)
    (hafter : after.rowId = before.rowId) :
    undoUpdate table before
      (mapInsert tables table (rows.map (fun t => if t.rowId = rowId then after else t)))
      = tables := by
  obtain ⟨hmem, hid, _⟩ := findLive_some rows rowId before hlive
  have hback : (rows.map (fun t => if t.rowId = rowId then after else t)).map
      (fun t => if t.rowId = before.rowId then before else t) = rows := by
    rw [List.map_map]
    conv_rhs => rw [← List.map_id rows]
    apply List.map_congr_left
    intro t ht
    simp only [Function.comp, id]
    by_cases h : t.rowId = rowId
    · simp only [h, if_true, hafter]
      exact (eq_of_rowId_eq rows hU t before ht hmem (h.trans hid.symm)).symm
    · have h2 : ¬ t.rowId = before.rowId := by rw [hid]; exact h
      simp only [h, if_false, h2]
  simp only [undoUpdate, mapFind_mapInsert_self, hback, mapInsert_mapInsert]
  exact mapInsert_of_mapFind _ _ _ hfind

theorem undoRemove_remove (tables : Tables) (table : String) (rows : List Tuple)
    (rowId : Nat) (found : Tuple) (hfind : mapFind tables table = some rows)
    (hU : (rows.map (fun t => t.rowId)).Nodup) (hlive : findLive rows rowId = some found) :
    undoRemove table rowId
      (mapInsert tables table
        (rows.map (fun t => if t.rowId = rowId then { t with deleted := true } else t)))
      = tables := by
  obtain ⟨hmem, hid, hdel⟩ := findLive_some rows rowId found hlive
  have hback : (rows.map (fun t => if t.rowId = rowId then { t with deleted := true } else t)).map
      (fun t => if t.rowId = rowId then { t with deleted := false } else t) = rows := by
    rw [List.map_map]
    conv_rhs => rw [← List.map_id rows]
    apply List.map_congr_left
    intro t ht
    simp only [Function.comp, id]
    by_cases h : t.rowId = rowId
    · have ht2 : t = found := eq_of_rowId_eq rows hU t found ht hmem (h.trans hid.symm)
      rw [ht2]
      obtain ⟨r, x, ts, d, cols⟩ := found
      simp only at hdel hid
      simp [hdel, hid]
    · simp only [h, if_false]
  simp only [undoRemove, mapFind_mapInsert_self, hback, mapInsert_mapInsert]
  exact mapInsert_of_mapFind _ _ _ hfind

/-- One DML call either changes nothing or logs a record, changes the tables
and registers an undo action that maps the new tables back to the old ones. -/
theorem Executor.dmlStep_cases (env : ExecEnv) (T : Nat) (e : Executor) (c : DMLCall)
    (hU : RowIdsUnique e.tables) :
    Executor.dmlStep env T e c = e ∨
    ∃ (undo : Tables → Tables) (tables1 : Tables) (wal1 : WALManager),
      Executor.dmlStep env T e c =
        { txnManager :=
            TransactionManager.addUndoAction { e.txnManager with walManager := wal1 } T undo
          tables := tables1 } ∧
      undo tables1 = e.tables ∧ RowIdsUnique tables1 := by
  cases c with
  | insert table values now =>
      cases hfind : mapFind e.tables table with
      | none => left; simp [Executor.dmlStep, Executor.insert, hfind]
      | some rows =>
          by_cases hv : env.validate table rows values = true
          · right
            have hrows := hU _ (mapFind_mem _ _ _ hfind)
            refine ⟨undoInsert table (freshRowId rows), ?t1, ?w1, ?a1, ?b1, ?c1⟩
            case a1 =>
              simp only [Executor.dmlStep, Executor.insert, hfind, hv, Bool.not_true,
                Bool.false_eq_true, if_false, Executor.logRecord]
              exact rfl
            case b1 =>
              exact undoInsert_insert e.tables table rows
                { rowId := freshRowId rows, txnId := T, timestamp := now, deleted := false,
                  columns := values } hfind rfl
            case c1 =>
              apply RowIdsUnique.mapInsert _ _ _ hU
              simp only [List.map_append, List.map_cons, List.map_nil]
              refine List.Nodup.append hrows (List.nodup_singleton _) ?_
              simp only [List.disjoint_singleton, List.mem_map, not_exists, not_and]
              exact fun t ht => freshRowId_not_mem rows t ht
          · left
            simp [Executor.dmlStep, Executor.insert, hfind, hv]
  | update table rowId values =>
      cases hfind : mapFind e.tables table with
      | none => left; simp [Executor.dmlStep, Executor.update, hfind]
      | some rows =>
          cases hlive : findLive rows rowId with
          | none => left; simp [Executor.dmlStep, Executor.update, hfind, hlive]
          | some before =>
              right
              have hrows := hU _ (mapFind_mem _ _ _ hfind)
              refine ⟨undoUpdate table before, ?t2, ?w2, ?a2, ?b2, ?c2⟩
              case a2 =>
                simp only [Executor.dmlStep, Executor.update, hfind, hlive, Executor.logRecord]
                exact rfl
              case b2 =>
                exact undoUpdate_update e.tables table rows rowId before _ hfind hrows hlive rfl
              case c2 =>
                apply RowIdsUnique.mapInsert _ _ _ hU
                rw [List.map_map]
                have hsame : rows.map ((fun t => t.rowId) ∘ fun t =>
                    if t.rowId = rowId then
                      { before with
                        columns := values.foldl (fun cols kv => mapInsert cols kv.1 kv.2)
                          before.columns }
                    else t) = rows.map (fun t => t.rowId) := by
                  apply List.map_congr_left
                  intro t _
                  simp only [Function.comp]
                  by_cases h : t.rowId = rowId
                  · simp only [h, if_true]
                    exact (findLive_some rows rowId before hlive).2.1
                  · simp only [h, if_false]
                rw [hsame]
                exact hrows
  | remove table rowId =>
      cases hfind : mapFind e.tables table with
      | none => left; simp [Executor.dmlStep, Executor.remove, hfind]
      | some rows =>
          cases hlive : findLive rows rowId with
          | none => left; simp [Executor.dmlStep, Executor.remove, hfind, hlive]
          | some found =>
              right
              have hrows := hU _ (mapFind_mem _ _ _ hfind)
              refine ⟨undoRemove table rowId, ?t3, ?w3, ?a3, ?b3, ?c3⟩
              case a3 =>
                simp only [Executor.dmlStep, Executor.remove, hfind, hlive, Executor.logRecord]
                exact rfl
              case b3 =>
                exact undoRemove_remove e.tables table rows rowId found hfind hrows hlive
              case c3 =>
                apply RowIdsUnique.mapInsert _ _ _ hU
                rw [List.map_map]
                have hsame : rows.map ((fun t => t.rowId) ∘ fun t =>
                    if t.rowId = rowId then { t with deleted := true } else t)
                    = rows.map (fun t => t.rowId) := by
                  apply List.map_congr_left
                  intro t _
                  simp only [Function.comp]
                  by_cases h : t.rowId = rowId
                  · simp only [h, if_true]
                  · simp only [h, if_false]
                rw [hsame]
                exact hrows

theorem TransactionManager.addUndoAction_find {W : Type} (tm : TransactionManager W) (T : Nat)
    (txn : Transaction W) (action : W → W) (h : mapFind tm.activeTxns T = some txn) :
    mapFind (tm.addUndoAction T action).activeTxns T =
      some { txn with undoLog := txn.undoLog ++ [action] } := by
  simp only [TransactionManager.addUndoAction, h]
  exact mapFind_mapInsert_self _ _ _

/-- After a sequence of DML calls under an active transaction `T`, the undo
log of `T` has grown by actions that, run last-registered first, map the new
tables back to the old ones. -/
theorem Executor.dmlRun_undo (env : ExecEnv) (T : Nat) (calls : List DMLCall) (e : Executor)
    (txn : Transaction Tables) (hU : RowIdsUnique e.tables)
    (hT : mapFind e.txnManager.activeTxns T = some txn) :
    ∃ us : List (Tables → Tables),
      mapFind (Executor.dmlRun env T e calls).txnManager.activeTxns T =
        some { txn with undoLog := txn.undoLog ++ us } ∧
      us.foldr (fun action w => action w) (Executor.dmlRun env T e calls).tables = e.tables := by
  induction calls generalizing e txn with
  | nil => exact ⟨[], by simpa [Executor.dmlRun] using hT, rfl⟩
  | cons c cs ih =>
      have hrun : Executor.dmlRun env T e (c :: cs) =
          Executor.dmlRun env T (Executor.dmlStep env T e c) cs := rfl
      rw [hrun]
      rcases Executor.dmlStep_cases env T e c hU with hsame | ⟨undo, tables1, wal1, hstep, hundo, hU1⟩
      · rw [hsame]
        exact ih e txn hU hT
      · rw [hstep]
        have hT1 := TransactionManager.addUndoAction_find
          { e.txnManager with walManager := wal1 } T txn undo hT
        obtain ⟨us, hfind, hfold⟩ := ih
          { txnManager :=
              TransactionManager.addUndoAction { e.txnManager with walManager := wal1 } T undo
            tables := tables1 }
          { txn with undoLog := txn.undoLog ++ [undo] } hU1 hT1
        refine ⟨undo :: us, ?_, ?_⟩
        · rw [hfind]
          simp
        · simp only [List.foldr_cons]
          rw [hfold]
          exact hundo

theorem TransactionManager.rollback_of_find {W : Type} (tm : TransactionManager W)
    (txnId : Nat) (u : Indeterminate) (world : W) (txn : Transaction W)
    (hfind : mapFind tm.activeTxns txnId = some txn) :
    tm.rollback txnId u world =
      (true,
        { tm with
          walManager := (tm.walManager.appendRecord
            { type := .ABORT_TXN, lsn := u.lsn, txnId := txnId, length := u.length,
              data := [] }).2
          activeTxns := mapErase tm.activeTxns txnId },
        txn.undoLog.foldr (fun action w => action w) world) := by
  simp [TransactionManager.rollback, hfind, List.foldl_reverse]

/-- C9 (on the description the spec gives of the missing DML functions): in a
state whose tables have pairwise different row ids, `begin()` creates `T`, any
sequence of `insert`, `update` and `remove` calls runs under `T`, and
`rollback(T)` follows.  The rollback returns true and leaves the tables as
they were before `begin()`, so `select(table, always-true)` returns the same
tuples as before, for every table. -/
theorem rollback_restores_tables (env : ExecEnv) (e0 : Executor) (level : IsolationLevel)
    (u u2 : Indeterminate) (calls : List DMLCall) (table : String)
    (hU : RowIdsUnique e0.tables) :
    ((Executor.dmlRun env (e0.begin level u).1 (e0.begin level u).2 calls).rollback
      (e0.begin level u).1 u2).1 = true ∧
    ((Executor.dmlRun env (e0.begin level u).1 (e0.begin level u).2 calls).rollback
      (e0.begin level u).1 u2).2.tables = e0.tables ∧
    ((Executor.dmlRun env (e0.begin level u).1 (e0.begin level u).2 calls).rollback
      (e0.begin level u).1 u2).2.select table (fun _ => true) =
        e0.select table (fun _ => true) := by
  have hT : mapFind (e0.begin level u).2.txnManager.activeTxns (e0.begin level u).1 =
      some { txnId := e0.txnManager.txnCounter, isolationLevel := level,
             startLSN := e0.txnManager.walManager.getCurrentLSN, commitLSN := u.commitLSN,
             undoLog := [], active := true } := by
    simp only [Executor.begin, TransactionManager.begin]
    exact mapFind_mapInsert_self _ _ _
  obtain ⟨us, hfind, hfold⟩ := Executor.dmlRun_undo env (e0.begin level u).1 calls
    (e0.begin level u).2 _ hU hT
  have hroll := TransactionManager.rollback_of_find _ (e0.begin level u).1 u2
    (Executor.dmlRun env (e0.begin level u).1 (e0.begin level u).2 calls).tables _ hfind
  have htables : ((Executor.dmlRun env (e0.begin level u).1 (e0.begin level u).2 calls).rollback
      (e0.begin level u).1 u2).2.tables = e0.tables := by
    simp only [Executor.rollback, hroll, List.nil_append]
    exact hfold
  refine ⟨?_, htables, ?_⟩
  · simp only [Executor.rollback, hroll]
  · simp only [Executor.select, htables]

/-- On the sample executor, an insert, an update and two removals under a new
transaction change what `select` returns, and the rollback gives the old
result back. -/
theorem rollback_restores_tables_witness :
    (Executor.dmlRun sampleExecEnv 1 (sampleExecutor.begin .READ_COMMITTED sampleIndeterminate).2
        sampleDML).select "t" (fun _ => true) ≠ sampleExecutor.select "t" (fun _ => true) ∧
    ((Executor.dmlRun sampleExecEnv
        (sampleExecutor.begin .READ_COMMITTED sampleIndeterminate).1
        (sampleExecutor.begin .READ_COMMITTED sampleIndeterminate).2 sampleDML).rollback
      (sampleExecutor.begin .READ_COMMITTED sampleIndeterminate).1 sampleIndeterminate).2.select
        "t" (fun _ => true) = sampleExecutor.select "t" (fun _ => true) :=
  ⟨by decide,
    (rollback_restores_tables sampleExecEnv sampleExecutor .READ_COMMITTED sampleIndeterminate
      sampleIndeterminate sampleDML "t" (by unfold RowIdsUnique; decide)).2.2⟩

/-! ## Catalog across a restart -/

theorem sampleCatalogEngine_file :
    sampleCatalogEngine.catalogFile = some [2, 0, 0, 0, 0, 0, 0, 0, 0, 0, 0, 0] := by decide

/-- Whatever the uninitialised locals hold, the engine constructed on the
catalog file of the sample catalog knows no table `a`, and its counter is
computed from the uninitialised `tableId` members alone. -/
theorem QueryEngine.construct_sample (u : CatalogIndeterminate) :
    (QueryEngine.construct (StorageEngine.new "data" sampleDisk) sampleCatalogEngine.catalogFile
      true u).getTableSchema "a" = none ∧
    (QueryEngine.construct (StorageEngine.new "data" sampleDisk) sampleCatalogEngine.catalogFile
      true u).tableIdCounter =
      max (max 1 (((u.schema 0).tableId + 1) % 2 ^ 32)) (((u.schema 1).tableId + 1) % 2 ^ 32) := by
  rw [sampleCatalogEngine_file]
  constructor
  · simp [QueryEngine.construct, QueryEngine.loadCatalog, readU32, leNat, QueryEngine.loadLoop,
      TableSchema.deserialize, QueryEngine.getTableSchema, mapInsert, mapFind]
  · simp [QueryEngine.construct, QueryEngine.loadCatalog, readU32, leNat, QueryEngine.loadLoop,
      TableSchema.deserialize]

/-- C11 (fails on the code): after `createTable("a")` and `createTable("b")`
the catalog holds the ids 1 and 2 and the saved file is a count and two empty
entries, because `TableSchema::serialize` returns an empty buffer.  The engine
constructed on that file (the uninitialised members read as 0) holds one
schema with an empty name, its `tableIdCounter` is 1 and not 3, and the next
`createTable` is assigned the id 1, which table `a` held before the restart. -/
theorem restart_reassigns_table_id :
    sampleCatalogEngine.catalog.map (fun e => (e.1, e.2.tableId)) = [("a", 1), ("b", 2)] ∧
    sampleCatalogEngine.catalogFile = some [2, 0, 0, 0, 0, 0, 0, 0, 0, 0, 0, 0] ∧
    sampleRestartedEngine.catalog.map (fun e => (e.1, e.2.tableId)) = [("", 0)] ∧
    sampleRestartedEngine.tableIdCounter = 1 ∧
    ((sampleRestartedEngine.createTable "c" [] false).2.getTableSchema "c").map
      (fun schema => schema.tableId) = some 1 ∧
    ∀ u : CatalogIndeterminate,
      (QueryEngine.construct (StorageEngine.new "data" sampleDisk)
        sampleCatalogEngine.catalogFile true u).getTableSchema "a" = none := by
  refine ⟨by decide, by decide, by decide, by decide, by decide, ?_⟩
  intro u
  exact (QueryEngine.construct_sample u).1

/-! ## Checksum -/

theorem map_range_getD (l : List Nat) :
    (List.range l.length).map (fun i => l.getD i 0) = l := by
  apply List.ext_getElem
  · simp
  · intro i h1 h2
    simp only [List.length_map, List.length_range] at h1
    simp [List.getElem?_eq_getElem h1]

/-- C12: for every page (with its `PAGE_SIZE - sizeof(PageHeader)` = 8172
payload bytes), the memory image has `PAGE_SIZE` = 8192 bytes, the payload is
what follows the first 20, and `calculateChecksum()` is the sum modulo `2^32`
of the bytes at the offsets 20 to 8191; a page with the same payload, whatever
its header, has the same checksum. -/
theorem checksum_is_payload_sum (p q : Page)
    (hp : p.data.length = PAGE_SIZE - SIZEOF_PAGE_HEADER) (hq : q.data = p.data) :
    p.raw.length = 8192 ∧ p.data.length = 8172 ∧ p.raw.drop 20 = p.data ∧
    p.calculateChecksum = p.data.sum % 2 ^ 32 ∧
    p.calculateChecksum =
      ((List.range 8172).map (fun i => p.raw.getD (20 + i) 0)).sum % 2 ^ 32 ∧
    q.calculateChecksum = p.calculateChecksum := by
  have hsum : p.calculateChecksum = p.data.sum % 2 ^ 32 := by
    rw [Page.calculateChecksum_eq, List.take_of_length_le (Nat.le_of_eq hp)]
  have hlen : p.data.length = 8172 := hp
  refine ⟨p.raw_length hp, hlen, p.raw_drop_header, hsum, ?_, ?_⟩
  · have hget : (fun i => p.raw.getD (20 + i) 0) = fun i => p.data.getD i 0 :=
      funext (fun i => p.raw_getD_payload i)
    rw [hsum, hget, ← hlen, map_range_getD]
  · rw [Page.calculateChecksum_eq, Page.calculateChecksum_eq, hq]

/-- The sample page and the sample far page have the same payload and
different headers, and the same checksum. -/
theorem checksum_is_payload_sum_witness :
    samplePage.header ≠ sampleFarPage.header ∧
    sampleFarPage.calculateChecksum = samplePage.calculateChecksum :=
  ⟨by
      intro h
      have := congrArg PageHeader.pageId h
      exact absurd this (by decide),
    (checksum_is_payload_sum samplePage sampleFarPage samplePage_WF.2.2.2.2.2.2.1 rfl).2.2.2.2.2⟩

/-! ## What `writePage` stores -/

/-- A successful `writePage` leaves the memory image of the page, as given,
in its slot of the file. -/
theorem StorageEngine.writePage_slot (s : StorageEngine) (t : Nat) (P : Page)
    (content : List Nat) (hfile : mapFind s.disk.files t = some content)
    (hgood : (s.stream t).failbit = false) (hlen : P.raw.length = PAGE_SIZE) :
    (s.writePage t P).1 = true ∧
    mapFind (s.writePage t P).2.disk.files t =
      some (writeAt content (P.header.pageId * PAGE_SIZE % 2 ^ 32) P.raw) ∧
    ((writeAt content (P.header.pageId * PAGE_SIZE % 2 ^ 32) P.raw).drop
      (P.header.pageId * PAGE_SIZE % 2 ^ 32)).take PAGE_SIZE = P.raw := by
  rw [s.writePage_good t P content hfile hgood]
  refine ⟨rfl, mapFind_mapInsert_self _ _ _, ?_⟩
  have hread := read_writeAt content (P.header.pageId * PAGE_SIZE % 2 ^ 32) P.raw
  rw [hlen] at hread
  exact hread

theorem Page.zero_payload_checksum (p : Page) (h : p.data = Page.zero.data) :
    p.calculateChecksum = 0 := by
  have hz : Page.zero.data = List.replicate (PAGE_SIZE - SIZEOF_PAGE_HEADER) 0 := rfl
  rw [Page.calculateChecksum_eq, h, hz, List.take_of_length_le (by simp)]
  simp

theorem sampleBadChecksumPage_WF : sampleBadChecksumPage.WF := by
  have hz : sampleBadChecksumPage.data = List.replicate (PAGE_SIZE - SIZEOF_PAGE_HEADER) 0 := rfl
  refine ⟨by decide, by decide, by decide, by decide, by decide, by decide, ?_, ?_⟩
  · rw [hz, List.length_replicate]
  · intro b hb
    rw [hz] at hb
    rw [(List.mem_replicate.mp hb).2]
    decide

/-- C13 as stated fails: `writePage` stores the sample page whose checksum
field holds 1 over a zero payload as it is; the stored checksum field is 1 and
the byte sum of the stored payload is 0. -/
theorem writePage_keeps_wrong_checksum :
    (sampleEngine.writePage 1 sampleBadChecksumPage).1 = true ∧
    ∃ stored : List Nat,
      mapFind (sampleEngine.writePage 1 sampleBadChecksumPage).2.disk.files 1 = some stored ∧
      (Page.ofRaw ((stored.drop (sampleBadChecksumPage.header.pageId * PAGE_SIZE % 2 ^ 32)).take
        PAGE_SIZE)).header.checksum = 1 ∧
      (Page.ofRaw ((stored.drop (sampleBadChecksumPage.header.pageId * PAGE_SIZE % 2 ^ 32)).take
        PAGE_SIZE)).calculateChecksum = 0 := by
  obtain ⟨h1, h2, h3⟩ := StorageEngine.writePage_slot sampleEngine 1 sampleBadChecksumPage
    samplePage.raw sampleEngine_file rfl
    (sampleBadChecksumPage.raw_length sampleBadChecksumPage_WF.2.2.2.2.2.2.1)
  refine ⟨h1, _, h2, ?_, ?_⟩
  · rw [h3, Page.ofRaw_raw _ sampleBadChecksumPage_WF]
    rfl
  · rw [h3, Page.ofRaw_raw _ sampleBadChecksumPage_WF]
    exact Page.zero_payload_checksum _ rfl

/-- C13 (amended): when the file of table `t` exists and the cached stream of
`t`, if open, has not failed, `writePage(t, P)` succeeds and the 8192 bytes it
stores at the slot of `P` are the memory image of `P` as given.  The stored
checksum field is the one `P` came with; it equals the byte sum of the stored
payload exactly when the checksum field of `P` equals `calculateChecksum()`
already. -/
theorem writePage_stores_page_as_given (s : StorageEngine) (t : Nat) (P : Page)
    (hfile : (mapFind s.disk.files t).isSome = true)
    (hstream : ∀ f, mapFind s.tableFiles t = some f → f.is_open = true → f.failbit = false)
    (hP : P.WF) :
    (s.writePage t P).1 = true ∧
    ∃ stored : List Nat,
      mapFind (s.writePage t P).2.disk.files t = some stored ∧
      (stored.drop (P.header.pageId * PAGE_SIZE % 2 ^ 32)).take PAGE_SIZE = P.raw ∧
      ((stored.drop (P.header.pageId * PAGE_SIZE % 2 ^ 32)).take PAGE_SIZE).length = 8192 ∧
      (Page.ofRaw ((stored.drop (P.header.pageId * PAGE_SIZE % 2 ^ 32)).take
        PAGE_SIZE)).header.checksum = P.header.checksum ∧
      ((Page.ofRaw ((stored.drop (P.header.pageId * PAGE_SIZE % 2 ^ 32)).take
          PAGE_SIZE)).header.checksum =
        (Page.ofRaw ((stored.drop (P.header.pageId * PAGE_SIZE % 2 ^ 32)).take
          PAGE_SIZE)).data.sum % 2 ^ 32 ↔
        P.header.checksum = P.calculateChecksum) := by
  obtain ⟨content, hc⟩ := Option.isSome_iff_exists.mp hfile
  obtain ⟨hgood, _⟩ := s.stream_good t hfile hstream
  have hlen : P.raw.length = PAGE_SIZE := P.raw_length hP.2.2.2.2.2.2.1
  obtain ⟨h1, h2, h3⟩ := s.writePage_slot t P content hc hgood hlen
  refine ⟨h1, _, h2, h3, ?_, ?_, ?_⟩
  · rw [h3]
    exact hlen
  · rw [h3, Page.ofRaw_raw _ hP]
  · rw [h3, Page.ofRaw_raw _ hP, Page.calculateChecksum_eq,
      List.take_of_length_le (Nat.le_of_eq hP.2.2.2.2.2.2.1)]

/-- In the sample page store `writePage` stores the sample page, whose
checksum field is right, as given. -/
theorem writePage_stores_page_as_given_witness :
    (sampleEngine.writePage 1 samplePage).1 = true ∧
    ∃ stored : List Nat,
      mapFind (sampleEngine.writePage 1 samplePage).2.disk.files 1 = some stored ∧
      (stored.drop (samplePage.header.pageId * PAGE_SIZE % 2 ^ 32)).take PAGE_SIZE =
        samplePage.raw :=
  have h := writePage_stores_page_as_given sampleEngine 1 samplePage rfl
    (fun f hf _ => by cases hf) samplePage_WF
  ⟨h.1, h.2.elim (fun stored hs => ⟨stored, hs.1, hs.2.1⟩)⟩

/-! ## Page offsets -/

/-- After a successful `writePage` of `P`, `readPage` of any page id whose
32-bit offset equals that of `P.header.pageId` returns `P`. -/
theorem StorageEngine.readPage_after_write (s : StorageEngine) (t pageId now : Nat) (P : Page)
    (hs : s.Reachable) (hfile : (mapFind s.disk.files t).isSome = true)
    (hstream : ∀ f, mapFind s.tableFiles t = some f → f.is_open = true → f.failbit = false)
    (hP : P.WF) (hsum : P.header.checksum = P.calculateChecksum)
    (hoff : pageId * PAGE_SIZE % 2 ^ 32 = P.header.pageId * PAGE_SIZE % 2 ^ 32) :
    ((s.writePage t P).2.readPage t pageId now).1 = some P := by
  obtain ⟨content, hc⟩ := Option.isSome_iff_exists.mp hfile
  obtain ⟨hgood, hopen⟩ := s.stream_good t hfile hstream
  have hlen : P.raw.length = PAGE_SIZE := P.raw_length hP.2.2.2.2.2.2.1
  obtain ⟨_, h2, h3⟩ := s.writePage_slot t P content hc hgood hlen
  have hst : ((s.writePage t P).2.stream t).failbit = false := by
    rw [s.writePage_good t P content hc hgood]
    rw [StorageEngine.stream_eq _ t (s.stream t) (mapFind_mapInsert_self _ _ _) hopen]
    exact hgood
  exact StorageEngine.readPage_stored _ t pageId now P _
    (StorageEngine.Reachable.writePage t P hs).pageMap_nil h2 hst (by rw [hoff]; exact h3) hP
    (by simp [Page.verify, hsum])

theorem sampleFarPage_WF : sampleFarPage.WF :=
  Page.initialize_zero_WF 524288 1 (by norm_num) (by norm_num)

/-- C19 (fails on the code): the offset `pageId * PAGE_SIZE` is computed in
32-bit arithmetic, so the page ids 0 and `2^19` = 524288 address the same byte
range.  In the sample page store `readPage(1, 0)` returns page 0; after
`writePage` of the sample far page, whose page id is 524288, `readPage(1, 0)`
returns the far page: the write went over page 0. -/
theorem page_offset_wraps :
    524288 * PAGE_SIZE % 2 ^ 32 = 0 * PAGE_SIZE % 2 ^ 32 ∧
    sampleFarPage.header.pageId = 524288 ∧
    (sampleEngine.readPage 1 0 0).1 = some samplePage ∧
    (sampleEngine.writePage 1 sampleFarPage).1 = true ∧
    ((sampleEngine.writePage 1 sampleFarPage).2.readPage 1 0 0).1 = some sampleFarPage := by
  have hfar : sampleFarPage.header.pageId = 524288 := rfl
  refine ⟨by decide, hfar, sampleEngine_readPage, ?_, ?_⟩
  · exact (StorageEngine.writePage_slot sampleEngine 1 sampleFarPage samplePage.raw
      sampleEngine_file rfl (sampleFarPage.raw_length sampleFarPage_WF.2.2.2.2.2.2.1)).1
  · exact StorageEngine.readPage_after_write sampleEngine 1 0 0 sampleFarPage
      sampleEngine_reachable rfl (fun f hf _ => by cases hf) sampleFarPage_WF
      (Page.initialize_checksum _ 524288 1) (by rw [hfar]; decide)

/-! ## Record and value layouts -/

/-- C14 as stated fails: for the sample commit record (own `lsn` member 7,
transaction 1, no payload) `appendRecord` on the fresh sample log appends 25
bytes, the allocated LSN 0, the type, the `lsn` member and `txnId`, and not the
21 bytes of the layout `lsn || type || txnId || length || payload`. -/
theorem appendRecord_differs_from_spec_layout :
    (sampleWAL.appendRecord sampleRecord).2.currentSegment =
      some [0, 0, 0, 0, 0, 0, 0, 0, 2, 7, 0, 0, 0, 0, 0, 0, 0, 1, 0, 0, 0, 0, 0, 0, 0] ∧
    specWalFrame 0 sampleRecord =
      [0, 0, 0, 0, 0, 0, 0, 0, 2, 1, 0, 0, 0, 0, 0, 0, 0, 0, 0, 0, 0] ∧
    (sampleWAL.appendRecord sampleRecord).2.currentSegment ≠
      sampleWAL.currentSegment.map (fun c => c ++ specWalFrame 0 sampleRecord) := by
  refine ⟨by decide, by decide, by decide⟩

/-- C14 (amended): for every record `r`, the bytes `appendRecord(r)` appends
to an open segment are exactly the allocated LSN as 8 bytes little-endian, the
type as 1 byte, the `lsn` member of `r` as 8 bytes little-endian, `txnId` as 8
bytes little-endian, and the payload bytes; no length is written. -/
theorem appendRecord_bytes (w : WALManager) (r : WALRecord) (segment : List Nat)
    (h : w.currentSegment = some segment) :
    (w.appendRecord r).2.currentSegment =
      some (segment ++ (leBytes 8 w.currentLSN ++ [r.type.toByte] ++ leBytes 8 r.lsn ++
        leBytes 8 r.txnId ++ r.data)) ∧
    (leBytes 8 w.currentLSN ++ [r.type.toByte] ++ leBytes 8 r.lsn ++ leBytes 8 r.txnId ++
      r.data).length = 25 + r.data.length ∧
    (w.appendRecord r).1 = w.currentLSN := by
  refine ⟨?_, ?_, rfl⟩
  · simp [WALManager.appendRecord, h, WALRecord.serialize]
  · simp only [List.length_append, leBytes_length, List.length_singleton]

/-- On the fresh sample log the sample commit record is appended as the 25
bytes of LSN 0, type 2, `lsn` member 7 and transaction 1. -/
theorem appendRecord_bytes_witness :
    (sampleWAL.appendRecord sampleRecord).2.currentSegment =
      some ([] ++ (leBytes 8 sampleWAL.currentLSN ++ [sampleRecord.type.toByte] ++
        leBytes 8 sampleRecord.lsn ++ leBytes 8 sampleRecord.txnId ++ sampleRecord.data)) :=
  (appendRecord_bytes sampleWAL sampleRecord [] rfl).1

/-- C15 (fails on the code): `WALRecord::deserialize` returns the local it
declared, whatever the bytes are: its payload is empty, its other members are
what the uninitialised local held.  For the sample insert record the payload
`[42]` is not read back, and so for every record with a payload. -/
theorem record_roundtrip_loses_payload :
    samplePayloadRecord.serialize =
      [4, 5, 0, 0, 0, 0, 0, 0, 0, 1, 0, 0, 0, 0, 0, 0, 0, 42] ∧
    (WALRecord.deserialize samplePayloadRecord.serialize sampleRecord).data = [] ∧
    (WALRecord.deserialize samplePayloadRecord.serialize sampleRecord).lsn = 7 ∧
    (∀ (r u : WALRecord), r.data ≠ [] → (WALRecord.deserialize r.serialize u).data ≠ r.data) ∧
    ∀ (r u : WALRecord), WALRecord.deserialize r.serialize u = WALRecord.deserialize [] u := by
  refine ⟨by decide, rfl, rfl, ?_, fun _ _ => rfl⟩
  intro r u hr heq
  exact hr heq.symm

/-- C17: for every string `s` of `n < 2^32` bytes, `Value(s).serialize()` is
the tag byte 8, then `n` as 4 bytes little-endian, then the bytes of `s`; its
length is `5 + n`. -/
theorem string_serialize_layout (s : List Nat) (h : s.length < 2 ^ 32) :
    (Value.ofString s).serialize = [8] ++ leBytes 4 s.length ++ s ∧
    (Value.ofString s).serialize =
      8 :: s.length % 256 :: s.length / 256 % 256 :: s.length / 65536 % 256 ::
        s.length / 16777216 % 256 :: s ∧
    leNat (leBytes 4 s.length) = s.length ∧
    (Value.ofString s).serialize.length = 5 + s.length := by
  have hser : (Value.ofString s).serialize = [8] ++ leBytes 4 s.length ++ s := by
    simp only [Value.serialize, Value.ofString, DataType.toByte, Nat.mod_eq_of_lt h]
  refine ⟨hser, ?_, leNat_leBytes_four _ h, ?_⟩
  · rw [hser, leBytes_four]
    rfl
  · rw [hser]
    simp only [List.length_append, List.length_singleton, leBytes_length]

/-- The two-byte string `hi` serialises to the tag 8, the length 2 and the
two bytes. -/
theorem string_serialize_layout_witness :
    (Value.ofString [104, 105]).serialize = [8, 2, 0, 0, 0, 104, 105] :=
  (string_serialize_layout [104, 105] (by decide)).2.1

/-- C18 as stated fails: the sample binary value holds three bytes and
serialises to the tag byte 9 alone, not to the tag, the length and the
bytes. -/
theorem binary_serialize_is_tag_only :
    sampleBinary.serialize = [9] ∧
    specBinaryEncoding sampleBinary.binaryVal = [9, 3, 0, 0, 0, 1, 2, 3] ∧
    sampleBinary.serialize ≠ specBinaryEncoding sampleBinary.binaryVal := by
  refine ⟨by decide, by decide, by decide⟩

/-- C18 (amended): for every value of type binary, whatever bytes `binaryVal`
holds, `serialize()` is the tag byte 9 alone: the `switch` has no case for
`TYPE_BINARY`, so neither a length nor the bytes are written. -/
theorem binary_serialize_tag (v : Value) (h : v.type = .TYPE_BINARY) :
    v.serialize = [9] ∧ v.serialize.length = 1 := by
  have hser : v.serialize = [9] := by
    simp only [Value.serialize, h, DataType.toByte]
  exact ⟨hser, by rw [hser]; rfl⟩

/-- The sample binary value serialises to one byte. -/
theorem binary_serialize_tag_witness : sampleBinary.serialize = [9] :=
  (binary_serialize_tag sampleBinary rfl).1

/-! ## Hit rate -/

/-- Whatever the rounding, as long as it is monotone and exact on 1 and 2:
with `2^64 - 1` hits and 2 misses the 64-bit sum is 1 and the hit rate is at
least 2. -/
theorem BufferPool.getHitRate_wrapped (rnd : ℚ → ℚ) (hmono : Monotone rnd) (h1 : rnd 1 = 1)
    (h2 : rnd 2 = 2) : 2 ≤ sampleWrappedPool.getHitRate rnd := by
  have htotal : (sampleWrappedPool.hits + sampleWrappedPool.misses) % 2 ^ 64 = 1 := by decide
  have hhits : (2 : ℚ) ≤ rnd (sampleWrappedPool.hits : ℚ) := by
    rw [← h2]
    apply hmono
    show (2 : ℚ) ≤ ((2 ^ 64 - 1 : ℕ) : ℚ)
    norm_num
  simp only [BufferPool.getHitRate, htotal, Nat.lt_one_iff, Nat.one_pos, if_true, Nat.cast_one,
    h1, div_one]
  rw [← h2]
  exact hmono hhits

/-- C16 as stated fails: the counters `hits = 2^64 - 1`, `misses = 2` have the
64-bit sum 1, so `getHitRate()` divides `hits` by 1: with exact arithmetic the
result is `2^64 - 1`, above 1 and not `hits / (hits + misses)`. -/
theorem hit_rate_exceeds_one_after_wrap :
    sampleWrappedPool.hits < 2 ^ 64 ∧ sampleWrappedPool.misses < 2 ^ 64 ∧
    sampleWrappedPool.getHitRate id = 18446744073709551615 ∧
    1 < sampleWrappedPool.getHitRate id ∧
    sampleWrappedPool.getHitRate id ≠
      (sampleWrappedPool.hits : ℚ) / ((sampleWrappedPool.hits : ℚ) + sampleWrappedPool.misses) := by
  have htotal : (sampleWrappedPool.hits + sampleWrappedPool.misses) % 2 ^ 64 = 1 := by decide
  have hval : sampleWrappedPool.getHitRate id = 18446744073709551615 := by
    simp only [BufferPool.getHitRate, htotal, Nat.one_pos, if_true, Nat.cast_one, id, div_one]
    show ((2 ^ 64 - 1 : ℕ) : ℚ) = 18446744073709551615
    norm_num
  refine ⟨by decide, by decide, hval, ?_, ?_⟩
  · rw [hval]
    norm_num
  · rw [hval]
    show (18446744073709551615 : ℚ) ≠ ((2 ^ 64 - 1 : ℕ) : ℚ) / (((2 ^ 64 - 1 : ℕ) : ℚ) + ((2 : ℕ) : ℚ))
    norm_num

/-- C16 (amended): for every pair of counter values whose sum is below `2^64`
and every rounding to `double` that is monotone and exact on 0 and 1,
`getHitRate()` is 0 when `hits + misses = 0` and otherwise the rounded
quotient of the rounded `hits` by the rounded `hits + misses`; it lies between
0 and 1 and is 0 when `hits = misses = 0`.  With exact arithmetic it is
`hits / (hits + misses)`. -/
theorem hit_rate_bounds (rnd : ℚ → ℚ) (bp : BufferPool) (hmono : Monotone rnd)
    (h0 : rnd 0 = 0) (h1 : rnd 1 = 1) (hsum : bp.hits + bp.misses < 2 ^ 64) :
    bp.getHitRate rnd =
      (if bp.hits + bp.misses = 0 then 0
        else rnd (rnd (bp.hits : ℚ) / rnd ((bp.hits + bp.misses : ℕ) : ℚ))) ∧
    0 ≤ bp.getHitRate rnd ∧ bp.getHitRate rnd ≤ 1 ∧
    (bp.hits = 0 → bp.misses = 0 → bp.getHitRate rnd = 0) ∧
    bp.getHitRate id = (bp.hits : ℚ) / ((bp.hits : ℚ) + (bp.misses : ℚ)) := by
  have htotal : (bp.hits + bp.misses) % 2 ^ 64 = bp.hits + bp.misses := Nat.mod_eq_of_lt hsum
  have hform : ∀ r : ℚ → ℚ, bp.getHitRate r =
      (if bp.hits + bp.misses = 0 then 0
        else r (r (bp.hits : ℚ) / r ((bp.hits + bp.misses : ℕ) : ℚ))) := by
    intro r
    simp only [BufferPool.getHitRate, htotal]
    by_cases hz : bp.hits + bp.misses = 0
    · simp [hz]
    · simp [hz, Nat.pos_of_ne_zero hz]
  have hnn : ∀ x : ℚ, 0 ≤ x → 0 ≤ rnd x := by
    intro x hx
    have := hmono hx
    rwa [h0] at this
  have hle1 : ∀ x : ℚ, x ≤ 1 → rnd x ≤ 1 := by
    intro x hx
    have := hmono hx
    rwa [h1] at this
  refine ⟨hform rnd, ?_, ?_, ?_, ?_⟩
  · rw [hform rnd]
    split
    · exact le_refl 0
    · exact hnn _ (div_nonneg (hnn _ (Nat.cast_nonneg _)) (hnn _ (Nat.cast_nonneg _)))
  · rw [hform rnd]
    split
    · exact zero_le_one
    · rename_i hz
      have hpos : (1 : ℚ) ≤ rnd ((bp.hits + bp.misses : ℕ) : ℚ) := by
        have h1le : (1 : ℚ) ≤ ((bp.hits + bp.misses : ℕ) : ℚ) := by
          have : 1 ≤ bp.hits + bp.misses := Nat.one_le_iff_ne_zero.mpr hz
          exact_mod_cast this
        have := hmono h1le
        rwa [h1] at this
      have hle : rnd (bp.hits : ℚ) ≤ rnd ((bp.hits + bp.misses : ℕ) : ℚ) := by
        apply hmono
        exact_mod_cast Nat.le_add_right bp.hits bp.misses
      exact hle1 _ ((div_le_one (lt_of_lt_of_le zero_lt_one hpos)).mpr hle)
  · intro hh hm
    rw [hform rnd, hh, hm]
    simp
  · rw [hform id]
    split
    · rename_i hz
      have hh : bp.hits = 0 := by omega
      simp [hh]
    · simp

/-- With 3 hits and 1 miss the hit rate is at most 1. -/
theorem hit_rate_bounds_witness :
    sampleCountedPool.hits + sampleCountedPool.misses < 2 ^ 64 ∧
    sampleCountedPool.getHitRate id ≤ 1 ∧
    sampleCountedPool.getHitRate id =
      (sampleCountedPool.hits : ℚ) / ((sampleCountedPool.hits : ℚ) + sampleCountedPool.misses) :=
  have h := hit_rate_bounds id sampleCountedPool monotone_id rfl rfl (by decide)
  ⟨by decide, h.2.2.1, h.2.2.2.2⟩

/-! ## Closed transactions -/

theorem TxnCall.beginCount_cons {W : Type} (c : TxnCall W) (cs : List (TxnCall W)) :
    TxnCall.beginCount (c :: cs) = TxnCall.beginCount [c] + TxnCall.beginCount cs := by
  cases c with
  | begin level u => simp only [TxnCall.beginCount]; omega
  | commit txnId u => simp only [TxnCall.beginCount]; omega
  | rollback txnId u => simp only [TxnCall.beginCount]; omega
  | addUndoAction txnId action => simp only [TxnCall.beginCount]; omega

theorem TxnCall.beginCount_append {W : Type} (xs ys : List (TxnCall W)) :
    TxnCall.beginCount (xs ++ ys) = TxnCall.beginCount xs + TxnCall.beginCount ys := by
  induction xs with
  | nil => simp [TxnCall.beginCount]
  | cons c cs ih =>
      rw [List.cons_append, TxnCall.beginCount_cons, ih, TxnCall.beginCount_cons c cs]
      omega

/-- While the counter does not wrap, one call keeps every id in `activeTxns`
below `txnCounter`, and advances the counter by the number of `begin` calls. -/
theorem TransactionManager.step_keys_lt {W : Type} (st : TransactionManager W × W)
    (c : TxnCall W) (hK : ∀ e ∈ st.1.activeTxns, e.1 < st.1.txnCounter)
    (hb : st.1.txnCounter + TxnCall.beginCount [c] < 2 ^ 64) :
    (∀ e ∈ (TransactionManager.step st c).2.1.activeTxns,
      e.1 < (TransactionManager.step st c).2.1.txnCounter) ∧
    (TransactionManager.step st c).2.1.txnCounter =
      st.1.txnCounter + TxnCall.beginCount [c] := by
  cases c with
  | begin level u =>
      simp only [TxnCall.beginCount] at hb
      have hcnt : (TransactionManager.step st (.begin level u)).2.1.txnCounter
          = st.1.txnCounter + 1 := by
        show (st.1.txnCounter + 1) % 2 ^ 64 = st.1.txnCounter + 1
        exact Nat.mod_eq_of_lt hb
      refine ⟨?_, hcnt⟩
      intro e he
      rw [hcnt]
      simp only [TransactionManager.step, TransactionManager.begin] at he
      rcases mem_mapInsert _ _ _ _ he with heq | hmem
      · rw [heq]
        exact Nat.lt_succ_self _
      · exact Nat.lt_succ_of_lt (hK e hmem)
  | commit txnId u =>
      simp only [TransactionManager.step, TransactionManager.commit, TxnCall.beginCount,
        Nat.add_zero]
      split
      · exact ⟨hK, rfl⟩
      · split
        · exact ⟨hK, rfl⟩
        · exact ⟨fun e he => hK e (mem_mapErase _ _ _ he), rfl⟩
  | rollback txnId u =>
      simp only [TransactionManager.step, TransactionManager.rollback, TxnCall.beginCount,
        Nat.add_zero]
      split
      · exact ⟨hK, rfl⟩
      · exact ⟨fun e he => hK e (mem_mapErase _ _ _ he), rfl⟩
  | addUndoAction txnId action =>
      simp only [TransactionManager.step, TransactionManager.addUndoAction, TxnCall.beginCount,
        Nat.add_zero]
      split
      · exact ⟨hK, rfl⟩
      · rename_i txn hfind
        refine ⟨?_, rfl⟩
        intro e he
        have hold := hK _ (mapFind_mem _ _ _ hfind)
        rcases mem_mapInsert _ _ _ _ he with heq | hmem
        · rw [heq]
          exact hold
        · exact hK e hmem

theorem TransactionManager.run_keys_lt {W : Type} (st : TransactionManager W × W)
    (calls : List (TxnCall W)) (hK : ∀ e ∈ st.1.activeTxns, e.1 < st.1.txnCounter)
    (hb : st.1.txnCounter + TxnCall.beginCount calls < 2 ^ 64) :
    (∀ e ∈ (TransactionManager.run st calls).2.1.activeTxns,
      e.1 < (TransactionManager.run st calls).2.1.txnCounter) ∧
    (TransactionManager.run st calls).2.1.txnCounter =
      st.1.txnCounter + TxnCall.beginCount calls := by
  induction calls generalizing st with
  | nil => exact ⟨hK, rfl⟩
  | cons c cs ih =>
      rw [TxnCall.beginCount_cons] at hb ⊢
      obtain ⟨hK1, hc1⟩ := TransactionManager.step_keys_lt st c hK (by omega)
      obtain ⟨hK2, hc2⟩ := ih (TransactionManager.step st c).2 hK1 (by rw [hc1]; omega)
      simp only [TransactionManager.run]
      exact ⟨hK2, by rw [hc2, hc1]; omega⟩

/-- While the counter does not wrap, an id below `txnCounter` that is absent
from `activeTxns` stays so over one call, and the call does not return it. -/
theorem TransactionManager.step_absent {W : Type} (t : Nat) (st : TransactionManager W × W)
    (c : TxnCall W) (hlt : t < st.1.txnCounter) (habs : mapFind st.1.activeTxns t = none)
    (hb : st.1.txnCounter + TxnCall.beginCount [c] < 2 ^ 64) :
    t < (TransactionManager.step st c).2.1.txnCounter ∧
    mapFind (TransactionManager.step st c).2.1.activeTxns t = none ∧
    t ∉ TransactionManager.begunIds [(TransactionManager.step st c).1] := by
  cases c with
  | begin level u =>
      simp only [TxnCall.beginCount] at hb
      have hcnt : (TransactionManager.step st (.begin level u)).2.1.txnCounter
          = st.1.txnCounter + 1 := by
        show (st.1.txnCounter + 1) % 2 ^ 64 = st.1.txnCounter + 1
        exact Nat.mod_eq_of_lt hb
      refine ⟨by rw [hcnt]; omega, ?_, ?_⟩
      · simp only [TransactionManager.step, TransactionManager.begin]
        rw [mapFind_mapInsert_ne _ _ _ _ (by omega)]
        exact habs
      · simp only [TransactionManager.step, TransactionManager.begin,
          TransactionManager.begunIds, List.mem_singleton]
        omega
  | commit txnId u =>
      simp only [TransactionManager.step, TransactionManager.commit,
        TransactionManager.begunIds, List.not_mem_nil, not_false_eq_true, and_true]
      split
      · exact ⟨hlt, habs⟩
      · split
        · exact ⟨hlt, habs⟩
        · refine ⟨hlt, ?_⟩
          by_cases hx : txnId = t
          · rw [hx]
            exact mapFind_mapErase_self _ _
          · rw [mapFind_mapErase_ne _ _ _ hx]
            exact habs
  | rollback txnId u =>
      simp only [TransactionManager.step, TransactionManager.rollback,
        TransactionManager.begunIds, List.not_mem_nil, not_false_eq_true, and_true]
      split
      · exact ⟨hlt, habs⟩
      · refine ⟨hlt, ?_⟩
        by_cases hx : txnId = t
        · rw [hx]
          exact mapFind_mapErase_self _ _
        · rw [mapFind_mapErase_ne _ _ _ hx]
          exact habs
  | addUndoAction txnId action =>
      simp only [TransactionManager.step, TransactionManager.addUndoAction,
        TransactionManager.begunIds, List.not_mem_nil, not_false_eq_true, and_true]
      split
      · exact ⟨hlt, habs⟩
      · rename_i txn hfind
        refine ⟨hlt, ?_⟩
        have hx : txnId ≠ t := by
          intro hx
          rw [hx, habs] at hfind
          cases hfind
        rw [mapFind_mapInsert_ne _ _ _ _ hx]
        exact habs

theorem TransactionManager.step_counter_exact {W : Type} (st : TransactionManager W × W)
    (c : TxnCall W) (hb : st.1.txnCounter + TxnCall.beginCount [c] < 2 ^ 64) :
    (TransactionManager.step st c).2.1.txnCounter =
      st.1.txnCounter + TxnCall.beginCount [c] := by
  by_cases hbegin : ∃ level u, c = .begin level u
  · obtain ⟨level, u, rfl⟩ := hbegin
    simp only [TxnCall.beginCount] at hb ⊢
    show (st.1.txnCounter + 1) % 2 ^ 64 = st.1.txnCounter + (0 + 1)
    rw [Nat.mod_eq_of_lt hb]
  · have hne : ∀ level u, c ≠ .begin level u := fun level u hc => hbegin ⟨level, u, hc⟩
    rw [((TransactionManager.step_txnCounter st c).2 hne).2]
    cases c with
    | begin level u => exact absurd rfl (hne level u)
    | commit _ _ => rfl
    | rollback _ _ => rfl
    | addUndoAction _ _ => rfl

theorem TransactionManager.run_absent {W : Type} (t : Nat) (st : TransactionManager W × W)
    (calls : List (TxnCall W)) (hlt : t < st.1.txnCounter)
    (habs : mapFind st.1.activeTxns t = none)
    (hb : st.1.txnCounter + TxnCall.beginCount calls < 2 ^ 64) :
    mapFind (TransactionManager.run st calls).2.1.activeTxns t = none ∧
    t ∉ TransactionManager.begunIds (TransactionManager.run st calls).1 := by
  induction calls generalizing st with
  | nil => exact ⟨habs, by simp [TransactionManager.run, TransactionManager.begunIds]⟩
  | cons c cs ih =>
      rw [TxnCall.beginCount_cons] at hb
      obtain ⟨hlt1, habs1, hid1⟩ := TransactionManager.step_absent t st c hlt habs (by omega)
      have hc1 := TransactionManager.step_counter_exact st c (by omega)
      obtain ⟨habs2, hid2⟩ := ih (TransactionManager.step st c).2 hlt1 habs1
        (by rw [hc1]; omega)
      simp only [TransactionManager.run]
      refine ⟨habs2, ?_⟩
      rw [TransactionManager.begunIds_cons]
      intro hmem
      rcases List.mem_append.mp hmem with h | h
      · exact hid1 h
      · exact hid2 h

/-- A `commit` or `rollback` of `t` that returned true found `t` in
`activeTxns` and left it absent, with the counter as it was. -/
theorem TransactionManager.step_close {W : Type} (t : Nat) (u : Indeterminate)
    (st : TransactionManager W × W) (c : TxnCall W)
    (hc : c = .commit t u ∨ c = .rollback t u)
    (hok : (TransactionManager.step st c).1 = .flag true) :
    (mapFind st.1.activeTxns t).isSome = true ∧
    mapFind (TransactionManager.step st c).2.1.activeTxns t = none ∧
    (TransactionManager.step st c).2.1.txnCounter = st.1.txnCounter := by
  rcases hc with rfl | rfl
  · cases hfind : mapFind st.1.activeTxns t with
    | none => simp [TransactionManager.step, TransactionManager.commit, hfind] at hok
    | some txn =>
        cases ha : txn.active with
        | false => simp [TransactionManager.step, TransactionManager.commit, hfind, ha] at hok
        | true =>
            simp only [TransactionManager.step, TransactionManager.commit, hfind, ha,
              Bool.not_true, Bool.false_eq_true, if_false, Option.isSome_some, true_and,
              and_true]
            exact mapFind_mapErase_self _ _
  · cases hfind : mapFind st.1.activeTxns t with
    | none => simp [TransactionManager.step, TransactionManager.rollback, hfind] at hok
    | some txn =>
        simp only [TransactionManager.step, TransactionManager.rollback, hfind,
          Option.isSome_some, true_and, and_true]
        exact mapFind_mapErase_self _ _

/-- C20: on a freshly constructed manager, for every sequence of `begin`,
`commit` and `rollback` (and `addUndoAction`) calls with fewer than `2^64 - 1`
`begin` calls: once a `commit(t)` or `rollback(t)` has returned true, after
any further calls `t` is absent from `activeTxns`, none of the further `begin`
calls has returned `t`, and `commit(t)` and `rollback(t)` return false. -/
theorem closed_txn_stays_closed {W : Type} (wal : WALManager) (world : W)
    (pre post : List (TxnCall W)) (c : TxnCall W) (t : Nat) (u : Indeterminate)
    (hc : c = .commit t u ∨ c = .rollback t u)
    (hok : (TransactionManager.step
      (TransactionManager.run (TransactionManager.new wal, world) pre).2 c).1 = .flag true)
    (hbound : TxnCall.beginCount (pre ++ c :: post) < 2 ^ 64 - 1) :
    mapFind (TransactionManager.run (TransactionManager.step
      (TransactionManager.run (TransactionManager.new wal, world) pre).2 c).2
        post).2.1.activeTxns t = none ∧
    t ∉ TransactionManager.begunIds (TransactionManager.run (TransactionManager.step
      (TransactionManager.run (TransactionManager.new wal, world) pre).2 c).2 post).1 ∧
    (∀ u2 : Indeterminate, ((TransactionManager.run (TransactionManager.step
      (TransactionManager.run (TransactionManager.new wal, world) pre).2 c).2
        post).2.1.commit t u2).1 = false) ∧
    ∀ (u2 : Indeterminate) (w : W), ((TransactionManager.run (TransactionManager.step
      (TransactionManager.run (TransactionManager.new wal, world) pre).2 c).2
        post).2.1.rollback t u2 w).1 = false := by
  rw [TxnCall.beginCount_append, TxnCall.beginCount_cons] at hbound
  have hc0 : TxnCall.beginCount [c] = 0 := by
    rcases hc with rfl | rfl <;> rfl
  have h1 : (TransactionManager.new wal : TransactionManager W).txnCounter = 1 := rfl
  obtain ⟨hK, hcnt⟩ := TransactionManager.run_keys_lt (TransactionManager.new wal, world) pre
    (fun e he => by cases he) (by rw [h1]; omega)
  rw [h1] at hcnt
  obtain ⟨hsome, habs, hsame⟩ := TransactionManager.step_close t u _ c hc hok
  obtain ⟨txn, hfind⟩ := Option.isSome_iff_exists.mp hsome
  have hlt : t < (TransactionManager.run (TransactionManager.new wal, world) pre).2.1.txnCounter :=
    hK _ (mapFind_mem _ _ _ hfind)
  obtain ⟨hfinal, hids⟩ := TransactionManager.run_absent t _ post (by rw [hsame]; exact hlt) habs
    (by rw [hsame, hcnt]; omega)
  refine ⟨hfinal, hids, ?_, ?_⟩
  · intro u2
    simp [TransactionManager.commit, hfinal]
  · intro u2 w
    simp [TransactionManager.rollback, hfinal]

/-- On a fresh manager: `begin()` returns 1, `commit(1)` succeeds, and after
two more `begin()` calls transaction 1 is absent and was not returned again. -/
theorem closed_txn_stays_closed_witness :
    mapFind (TransactionManager.run (TransactionManager.step
      (TransactionManager.run ((TransactionManager.new sampleWAL : TransactionManager Unit), ())
        [.begin .READ_COMMITTED sampleIndeterminate]).2 (.commit 1 sampleIndeterminate)).2
        [.begin .READ_COMMITTED sampleIndeterminate,
          .begin .READ_COMMITTED sampleIndeterminate]).2.1.activeTxns 1 = none ∧
    1 ∉ TransactionManager.begunIds (TransactionManager.run (TransactionManager.step
      (TransactionManager.run ((TransactionManager.new sampleWAL : TransactionManager Unit), ())
        [.begin .READ_COMMITTED sampleIndeterminate]).2 (.commit 1 sampleIndeterminate)).2
        [.begin .READ_COMMITTED sampleIndeterminate,
          .begin .READ_COMMITTED sampleIndeterminate]).1 :=
  have h := closed_txn_stays_closed sampleWAL ()
    [.begin .READ_COMMITTED sampleIndeterminate]
    [.begin .READ_COMMITTED sampleIndeterminate, .begin .READ_COMMITTED sampleIndeterminate]
    (.commit 1 sampleIndeterminate) 1 sampleIndeterminate (Or.inl rfl) rfl (by decide)
  ⟨h.1, h.2.1⟩

/-! ## Buffer pool without loaded pages -/

theorem BufferPool.getPage_of_empty (bp : BufferPool) (t p now : Nat) (h : bp.pageMap = []) :
    bp.getPage t p now = (none, { bp with misses := (bp.misses + 1) % 2 ^ 64 }) := by
  simp [BufferPool.getPage, h, mapFind]

theorem BufferPool.markDirty_of_empty (bp : BufferPool) (t p : Nat) (h : bp.pageMap = []) :
    bp.markDirty t p = bp := by
  simp [BufferPool.markDirty, h, mapFind]

theorem BufferPool.flushAll_of_clean (bp : BufferPool)
    (h : ∀ f ∈ bp.frames, f.dirty = false) : bp.flushAll = bp := by
  have hmap : bp.frames.map (fun frame =>
      if frame.dirty then { frame with dirty := false } else frame) = bp.frames := by
    conv_rhs => rw [← List.map_id bp.frames]
    apply List.map_congr_left
    intro f hf
    simp [h f hf]
  unfold BufferPool.flushAll
  rw [hmap]

theorem BufferPool.getHitRate_of_no_hits (rnd : ℚ → ℚ) (bp : BufferPool) (h0 : rnd 0 = 0)
    (h : bp.hits = 0) : bp.getHitRate rnd = 0 := by
  unfold BufferPool.getHitRate
  simp only [h, Nat.cast_zero, h0, zero_div]
  split <;> rfl

/-- Every reachable pool has an empty page map, no hit, no dirty frame and a
miss counter that fits 64 bits. -/
theorem BufferPool.Reachable.inv {bp : BufferPool} (h : bp.Reachable) :
    bp.pageMap = [] ∧ bp.hits = 0 ∧ (∀ f ∈ bp.frames, f.dirty = false) ∧
    bp.misses < 2 ^ 64 := by
  induction h with
  | new sizeMB =>
      refine ⟨rfl, rfl, ?_, Nat.two_pow_pos 64⟩
      intro f hf
      have hz : f = Frame.zero := List.eq_of_mem_replicate hf
      rw [hz]
      rfl
  | getPage tableId pageId now _ ih =>
      rw [BufferPool.getPage_of_empty _ _ _ _ ih.1]
      exact ⟨ih.1, ih.2.1, ih.2.2.1, Nat.mod_lt _ (by decide)⟩
  | markDirty tableId pageId _ ih =>
      rw [BufferPool.markDirty_of_empty _ _ _ ih.1]
      exact ih
  | flushAll _ ih =>
      rw [BufferPool.flushAll_of_clean _ ih.2.2.1]
      exact ih

theorem BufferPool.getPages_reachable {bp : BufferPool} (h : bp.Reachable) (t p now n : Nat) :
    (bp.getPages t p now n).Reachable := by
  induction n with
  | zero => exact h
  | succ n ih => exact BufferPool.Reachable.getPage t p now ih

theorem BufferPool.getPages_misses {bp : BufferPool} (h : bp.Reachable) (t p now n : Nat) :
    (bp.getPages t p now n).misses = (bp.misses + n) % 2 ^ 64 := by
  induction n with
  | zero => exact (Nat.mod_eq_of_lt h.inv.2.2.2).symm
  | succ n ih =>
      have hr := (BufferPool.getPages_reachable h t p now n).inv.1
      show ((bp.getPages t p now n).getPage t p now).2.misses = _
      rw [BufferPool.getPage_of_empty _ _ _ _ hr]
      show ((bp.getPages t p now n).misses + 1) % 2 ^ 64 = _
      rw [ih, Nat.add_mod, Nat.mod_mod, ← Nat.add_mod, Nat.add_assoc]

theorem sampleSaturatedPool_misses : sampleSaturatedPool.misses = 18446744073709551615 := by
  unfold sampleSaturatedPool
  rw [BufferPool.getPages_misses (BufferPool.Reachable.new 1)]
  decide

theorem sampleSaturatedPool_reachable : sampleSaturatedPool.Reachable := by
  unfold sampleSaturatedPool
  exact BufferPool.getPages_reachable (BufferPool.Reachable.new 1) 1 0 0 _

theorem BufferPool.getPage_misses_of_empty (bp : BufferPool) (t p now : Nat)
    (h : bp.pageMap = []) : (bp.getPage t p now).2.misses = (bp.misses + 1) % 2 ^ 64 := by
  rw [BufferPool.getPage_of_empty bp t p now h]

/-- C21 as stated fails: `misses` is a 64-bit counter, so the pool reached by
`2^64 - 1` calls `getPage(1, 0)` on a fresh pool holds `misses = 2^64 - 1`, and
the next `getPage` (a miss again) takes `misses` to 0, not one further. -/
theorem getPage_misses_wrap :
    sampleSaturatedPool.Reachable ∧
    sampleSaturatedPool.misses = 2 ^ 64 - 1 ∧
    (sampleSaturatedPool.getPage 1 0 0).1 = none ∧
    (sampleSaturatedPool.getPage 1 0 0).2.misses = 0 ∧
    (sampleSaturatedPool.getPage 1 0 0).2.misses ≠ sampleSaturatedPool.misses + 1 := by
  have hr := sampleSaturatedPool_reachable
  have hm := sampleSaturatedPool_misses
  have hz : (sampleSaturatedPool.getPage 1 0 0).2.misses = 0 := by
    rw [BufferPool.getPage_misses_of_empty _ _ _ _ hr.inv.1, hm]
    decide
  refine ⟨hr, ?_, BufferPool.getPage_miss _ _ _ _ hr.inv.1, hz, ?_⟩
  · rw [hm]
    decide
  · rw [hz, hm]
    decide

/-- C21 (amended): in every buffer pool reachable from the constructor through
`getPage`, `markDirty` and `flushAll`, the page map is empty, no frame is dirty
and `hits` is 0; every `getPage` call returns a miss, changes nothing but
`misses`, which becomes `(misses + 1) mod 2^64` (one more while `misses` is below
`2^64 - 1`), and leaves `hits` at 0; every `markDirty` call and every `flushAll`
call leave the pool unchanged; and `getHitRate()` is 0, for a rounding that
keeps 0. -/
theorem reachable_pool_never_hits (bp : BufferPool) (h : bp.Reachable)
    (tableId pageId now : Nat) (rnd : ℚ → ℚ) (h0 : rnd 0 = 0) :
    bp.pageMap = [] ∧ (∀ f ∈ bp.frames, f.dirty = false) ∧ bp.hits = 0 ∧
    (bp.getPage tableId pageId now).1 = none ∧
    (bp.getPage tableId pageId now).2 = { bp with misses := (bp.misses + 1) % 2 ^ 64 } ∧
    (bp.getPage tableId pageId now).2.misses = (bp.misses + 1) % 2 ^ 64 ∧
    (bp.misses < 2 ^ 64 - 1 →
      (bp.getPage tableId pageId now).2.misses = bp.misses + 1) ∧
    (bp.getPage tableId pageId now).2.hits = 0 ∧
    bp.markDirty tableId pageId = bp ∧
    bp.flushAll = bp ∧
    bp.getHitRate rnd = 0 ∧
    (bp.getPage tableId pageId now).2.getHitRate rnd = 0 := by
  have hi := h.inv
  have hg := BufferPool.getPage_of_empty bp tableId pageId now hi.1
  refine ⟨hi.1, hi.2.2.1, hi.2.1, ?_, ?_, ?_, ?_, ?_, ?_, ?_, ?_, ?_⟩
  · rw [hg]
  · rw [hg]
  · rw [hg]
  · intro hlt
    rw [hg]
    show (bp.misses + 1) % 2 ^ 64 = bp.misses + 1
    exact Nat.mod_eq_of_lt (by omega)
  · rw [hg]
    exact hi.2.1
  · exact BufferPool.markDirty_of_empty bp tableId pageId hi.1
  · exact BufferPool.flushAll_of_clean bp hi.2.2.1
  · exact BufferPool.getHitRate_of_no_hits rnd bp h0 hi.2.1
  · apply BufferPool.getHitRate_of_no_hits rnd _ h0
    rw [hg]
    exact hi.2.1

/-- A pool after one `getPage`, one `markDirty` and one `flushAll` holds one
miss; the next `getPage(1, 0)` misses again and counts the second miss. -/
theorem reachable_pool_never_hits_witness :
    sampleMissedPool.Reachable ∧ sampleMissedPool.misses = 1 ∧
    sampleMissedPool.pageMap = [] ∧ sampleMissedPool.hits = 0 ∧
    (sampleMissedPool.getPage 1 0 0).1 = none ∧
    (sampleMissedPool.getPage 1 0 0).2.misses = 2 ∧
    (sampleMissedPool.getPage 1 0 0).2.hits = 0 ∧
    sampleMissedPool.markDirty 1 0 = sampleMissedPool ∧
    sampleMissedPool.getHitRate id = 0 :=
  have hr : sampleMissedPool.Reachable :=
    BufferPool.Reachable.flushAll
      (BufferPool.Reachable.markDirty 1 0
        (BufferPool.Reachable.getPage 1 0 0 (BufferPool.Reachable.new 1)))
  have hm : sampleMissedPool.misses = 1 := by decide
  have h := reachable_pool_never_hits sampleMissedPool hr 1 0 0 id rfl
  ⟨hr, hm, h.1, h.2.2.1, h.2.2.2.1,
    (h.2.2.2.2.2.2.1 (by rw [hm]; decide)).trans (by rw [hm]),
    h.2.2.2.2.2.2.2.1, h.2.2.2.2.2.2.2.2.1, h.2.2.2.2.2.2.2.2.2.2.1⟩

/-! ## Equality of values -/

/-- C22: for all values `a` and `b`, `a == b` holds exactly when both carry the
same type tag, the tag is boolean, int64 or string, and the payloads of that
tag are equal; the comparison is symmetric; and `v == v` is false for every
null, double, binary, timestamp or json value (as for every other tag outside
boolean, int64 and string). -/
theorem value_eq_spec (a b : Value) :
    (Value.eq a b = true ↔
      a.type = b.type ∧
      ((a.type = .TYPE_BOOLEAN ∧ a.boolVal = b.boolVal) ∨
        (a.type = .TYPE_INT64 ∧ a.intVal = b.intVal) ∨
        (a.type = .TYPE_STRING ∧ a.stringVal = b.stringVal))) ∧
    Value.eq a b = Value.eq b a ∧
    ((a.type = .TYPE_NULL ∨ a.type = .TYPE_DOUBLE ∨ a.type = .TYPE_BINARY ∨
        a.type = .TYPE_TIMESTAMP ∨ a.type = .TYPE_JSON) → Value.eq a a = false) ∧
    (a.type ≠ .TYPE_BOOLEAN → a.type ≠ .TYPE_INT64 → a.type ≠ .TYPE_STRING →
      Value.eq a b = false) ∧
    (a.type = .TYPE_BOOLEAN ∨ a.type = .TYPE_INT64 ∨ a.type = .TYPE_STRING →
      Value.eq a a = true) := by
  obtain ⟨ta, ba, ia, da, sa, xa⟩ := a
  obtain ⟨tb, bb, ib, db, sb, xb⟩ := b
  refine ⟨?_, ?_, ?_, ?_, ?_⟩
  · cases ta <;> cases tb <;> simp [Value.eq]
  · cases ta <;> cases tb <;> simp [Value.eq, eq_comm]
  · cases ta <;> simp [Value.eq]
  · cases ta <;> cases tb <;> simp [Value.eq]
  · cases ta <;> simp [Value.eq]

/-- Two int64 values 5 are equal, a boolean and an int64 are not, and a null
value and a double value differ from themselves. -/
theorem value_eq_spec_witness :
    Value.eq (Value.ofInt 5) (Value.ofInt 5) = true ∧
    Value.eq (Value.ofInt 5) (Value.ofInt 6) = false ∧
    Value.eq (Value.ofBool true) (Value.ofInt 1) = false ∧
    Value.eq Value.null Value.null = false ∧
    Value.eq (Value.ofDouble 0) (Value.ofDouble 0) = false :=
  have h := value_eq_spec (Value.ofInt 5) (Value.ofInt 5)
  ⟨h.1.mpr ⟨rfl, Or.inr (Or.inl ⟨rfl, rfl⟩)⟩, by decide, by decide,
    (value_eq_spec Value.null Value.null).2.2.1 (Or.inl rfl),
    (value_eq_spec (Value.ofDouble 0) (Value.ofDouble 0)).2.2.1 (Or.inr (Or.inl rfl))⟩

end hybriddb
